import Mathlib

/-!
Verification of the goratchet Double Ratchet core (the canonical copy in
src/example/ratchet/main.go, with its crypto helpers DeriveRK / DeriveCK /
DeriveHKDF and the shared types Header / CipheredMessage / headerID).

The cryptographic primitives are embedded symbolically: byte strings are terms
of the inductive type `B`, key derivation and authenticated encryption are
injective term constructors, and the Diffie-Hellman exchange on P-256 is
modelled by an unordered pair of the two scalars, which makes the shared
secret commutative exactly as `pri.ECDH(pub)` is.  Randomness (the AEAD nonce
drawn in `crypto.Encrypt` and the fresh ephemeral drawn in
`diffieHellmanRatchet.refresh`) is passed in explicitly as a parameter, the
standard deterministic modelling of an ambient CSPRNG; `crypto.Encrypt` can
fail only when that entropy read fails, which is modelled by an `Option Nat`
nonce argument.  The `uint32` message counters are `Nat` reduced mod `2 ^ 32`
at each `++`, as in Go.
-/

namespace Goratchet

/-- Symbolic byte strings.  `bits` is a concrete byte literal (plaintexts,
associated data, salts, info strings, malformed inputs).  `priOf k` is the
scalar encoding of the P-256 private key with index `k`; `pubOf k` is the
uncompressed-point encoding of its public key.  `secret a b` is the ECDH
shared secret between the key pairs `a` and `b`, kept in sorted order so that
the exchange is commutative.  `hkdf ikm salt info len` is the output of
`crypto.DeriveHKDF(ikm, salt, info, len)` (first argument the input keying
material, second the HKDF salt).  `part src off len` is the byte slice
`src[off : off+len]` used when `DeriveRK` splits a 64-byte output in halves.
`ckNext ck` and `mkOf ck` are `HMAC(ck, 0x02)` and `HMAC(ck, 0x01)` from
`crypto.DeriveCK`.  `enc mk nonce pt ad` is the AES-256-GCM ciphertext
(nonce prepended) produced by `crypto.Encrypt`. -/
inductive B : Type where
  | bits (l : List Nat)
  | priOf (k : Nat)
  | pubOf (k : Nat)
  | secret (a b : Nat)
  | hkdf (ikm salt info : B) (len : Nat)
  | part (src : B) (off len : Nat)
  | ckNext (ck : B)
  | mkOf (ck : B)
  | enc (mk : B) (nonce : Nat) (pt ad : B)
deriving DecidableEq, Repr

/-- Error taxonomy of the session operations (the Go code reports these as
distinct `error` values). -/
inductive Err : Type where
  | invalidKey
  | decryptFailed
  | outOfOrder
  | tooManySkipped
  | keyNotFound
  | internalCrypto
deriving DecidableEq, Repr

/-- Decidable equality for Except results, used to evaluate the operations at
concrete inputs. -/
instance {e a : Type} [DecidableEq e] [DecidableEq a] : DecidableEq (Except e a) := by
  intro x y
  cases x <;> cases y
  case error.error u v =>
    exact if h : u = v then .isTrue (by rw [h]) else .isFalse (by simp [h])
  case error.ok u v => exact .isFalse (by simp)
  case ok.error u v => exact .isFalse (by simp)
  case ok.ok u v =>
    exact if h : u = v then .isTrue (by rw [h]) else .isFalse (by simp [h])

/-- MaxSkip is the maximum number of message keys that can be skipped in a
single chain (src/example/ratchet/main.go). -/
def MaxSkip : Nat := 1000

/-- Modulus of the `uint32` message counters. -/
def u32 : Nat := 2 ^ 32

/-- Info string "DoubleRatchet-Root" as ASCII bytes. -/
def rootInfo : B := .bits [68, 111, 117, 98, 108, 101, 82, 97, 116, 99, 104,
  101, 116, 45, 82, 111, 111, 116]

/-- Info string "DoubleRatchet-Chain-1" as ASCII bytes. -/
def chain1Info : B := .bits [68, 111, 117, 98, 108, 101, 82, 97, 116, 99, 104,
  101, 116, 45, 67, 104, 97, 105, 110, 45, 49]

/-- Info string "DoubleRatchet-Chain-2" as ASCII bytes. -/
def chain2Info : B := .bits [68, 111, 117, 98, 108, 101, 82, 97, 116, 99, 104,
  101, 116, 45, 67, 104, 97, 105, 110, 45, 50]

/-- Serialized public key of the key pair with scalar index `k`
(`pri.PublicKey().Bytes()` / `pub.Bytes()`). -/
def pubB (k : Nat) : B := .pubOf k

/-- Parsing of `ecdh.P256().NewPrivateKey`: succeeds exactly on scalar
encodings. -/
def parsePri : B → Option Nat
  | .priOf k => some k
  | _ => none

/-- Parsing of `ecdh.P256().NewPublicKey`: succeeds exactly on valid
uncompressed-point encodings. -/
def parsePub : B → Option Nat
  | .pubOf k => some k
  | _ => none

/-- ECDH shared secret of the key pairs with scalars `a` and `b`
(`pri.ECDH(pub)`); the sorted pair makes it commutative, as the x-coordinate
of `a·b·G` is. -/
def sharedSecret (a b : Nat) : B :=
  if a ≤ b then .secret a b else .secret b a

/-- Ordering of serialized public keys used by `bytes.Compare(localPubBytes,
remotePubBytes) < 0` in `init`; the model orders the (injective) encodings by
their scalar index. -/
def pubLt (x y : B) : Bool :=
  match x, y with
  | .pubOf a, .pubOf b => a < b
  | _, _ => false

/-- crypto.DeriveCK: message key `HMAC(ck, 0x01)` and next chain key
`HMAC(ck, 0x02)`; returns `(nextCk, mk)` as the Go function does. -/
def DeriveCK (ck : B) : B × B := (.ckNext ck, .mkOf ck)

/-- crypto.DeriveRK: `keys := DeriveHKDF(dhOut, rk, "DoubleRatchet-Root", 64)`
split into two 32-byte halves `(nextRk, nextCk)`.  The current root key is the
HKDF salt and the DH output the input keying material. -/
def DeriveRK (rk dhOut : B) : B × B :=
  (.part (.hkdf dhOut rk rootInfo 64) 0 32, .part (.hkdf dhOut rk rootInfo 64) 32 32)

/-- crypto.Encrypt: AES-256-GCM with a random 12-byte nonce prepended.  The
nonce is the explicit model of the `rand.Reader` draw; `none` models a failed
entropy read (`io.ReadFull` error), the only way `crypto.Encrypt` can fail on
a 32-byte key. -/
def encB (mk : B) (pt ad : B) (nonce : Option Nat) : Option B :=
  nonce.map fun n => .enc mk n pt ad

/-- crypto.Decrypt: succeeds exactly on a well-formed AEAD ciphertext whose
key and associated data match (GCM authentication). -/
def decB (mk : B) (ct ad : B) : Option B :=
  match ct with
  | .enc mk' _ pt ad' => if mk' = mk ∧ ad' = ad then some pt else none
  | _ => none

/-- headerID: the fingerprint `(string(h.DH), h.N, h.PN)` used as the
skipped-message-key map key. -/
abbrev HeaderID := B × Nat × Nat

/-- Header of a ciphered message: sender's current public key bytes, message
number in the current chain, length of the previous sending chain. -/
structure Header : Type where
  dh : B
  n : Nat
  pn : Nat
deriving DecidableEq, Repr

/-- Header.key(): the headerID fingerprint of a header; note that it includes
the PN field. -/
def Header.hid (h : Header) : HeaderID := (h.dh, h.n, h.pn)

/-- CipheredMessage: header plus opaque ciphertext. -/
structure CMsg : Type where
  header : Header
  ct : B
deriving DecidableEq, Repr

/-- Lookup in the skipped-message-key map (Go map indexing, content equality
on the headerID). -/
def lookupSK : List (HeaderID × B) → HeaderID → Option B
  | [], _ => none
  | (k, v) :: rest, q => if k = q then some v else lookupSK rest q

/-- Map deletion `delete(m, k)`. -/
def eraseSK : List (HeaderID × B) → HeaderID → List (HeaderID × B)
  | [], _ => []
  | e :: rest, k => if e.1 = k then eraseSK rest k else e :: eraseSK rest k

/-- Map insertion `m[k] = v` (replaces an existing binding for `k`). -/
def insertSK (m : List (HeaderID × B)) (k : HeaderID) (v : B) : List (HeaderID × B) :=
  eraseSK m k ++ [(k, v)]

/-- The doubleRatchet session state (src/example/ratchet/main.go).  The DH
ratchet's `localPrivateKey` and `remotePublicKey` are stored as their parsed
scalar indices; their byte serializations are `B.priOf` / `B.pubOf`. -/
structure DR : Type where
  localPri : Nat
  remotePub : Nat
  rootKey : B
  sendChainKey : B
  recvChainKey : B
  sendN : Nat
  recvN : Nat
  prevN : Nat
  skipped : List (HeaderID × B)
deriving DecidableEq, Repr

/-- The session produced by `New(priOf a, pubOf b, salt)` after parsing
succeeds: `init` derives the root key and the two direction-separated chain
keys from the shared secret. -/
def newDR (a b : Nat) (salt : B) : DR :=
  let ss := sharedSecret a b
  let infoSend := if pubLt (pubB a) (pubB b) then chain1Info else chain2Info
  let infoRecv := if pubLt (pubB a) (pubB b) then chain2Info else chain1Info
  { localPri := a
    remotePub := b
    rootKey := .hkdf ss salt rootInfo 32
    sendChainKey := .hkdf ss salt infoSend 32
    recvChainKey := .hkdf ss salt infoRecv 32
    sendN := 0
    recvN := 0
    prevN := 0
    skipped := [] }

/-- New: parse the local private and remote public key, compute the initial
shared secret, and initialize the session. -/
def New (localPri remotePub salt : B) : Except Err DR :=
  match parsePri localPri with
  | none => .error .invalidKey
  | some a =>
    match parsePub remotePub with
    | none => .error .invalidKey
    | some b => .ok (newDR a b salt)

/-- Send: advance the send chain, build the header from the pre-increment
SendN, increment SendN, then encrypt.  The state is returned also on failure,
since the Go method mutates the session in place before `crypto.Encrypt`
runs. -/
def Send (s : DR) (pt ad : B) (nonce : Option Nat) : Except Err CMsg × DR :=
  let next := DeriveCK s.sendChainKey
  let s1 := { s with sendChainKey := next.1 }
  let h : Header := ⟨pubB s1.localPri, s1.sendN, s1.prevN⟩
  let s2 := { s1 with sendN := (s1.sendN + 1) % u32 }
  match encB next.2 pt ad nonce with
  | some ct => (.ok ⟨h, ct⟩, s2)
  | none => (.error .internalCrypto, s2)

/-- Body of the skip loop in skipMessageKeys, iterated `k` times: derive the
next receive chain key and a message key, store it under
`(remotePublicKey.Bytes(), until, prevN)`, and advance `until` and RecvN. -/
def skipLoop : DR → Nat → Nat → DR
  | s, _, 0 => s
  | s, u, k + 1 =>
    let next := DeriveCK s.recvChainKey
    skipLoop
      { s with
        recvChainKey := next.1
        skipped := insertSK s.skipped (pubB s.remotePub, u, s.prevN) next.2
        recvN := (s.recvN + 1) % u32 }
      (u + 1) k

/-- skipMessageKeys: fail out-of-order when `target < until`, fail
too-many-skipped when `target - until >= MaxSkip` (both checks precede the
loop, so a failure leaves the session untouched), otherwise derive and store
the `target - until` skipped keys. -/
def skipMessageKeys (s : DR) (u t : Nat) : Except Err DR :=
  if t < u then .error .outOfOrder
  else if MaxSkip ≤ t - u then .error .tooManySkipped
  else .ok (skipLoop s u (t - u))

/-- dhRatchet: save RecvN into PrevN, reset both counters, parse the incoming
public key (the counter mutations are committed even if parsing fails, as in
the Go method), store it as the remote key, derive the new receive chain from
`DH(old local, new remote)`, refresh the local ephemeral with the fresh
scalar `g`, and derive the new send chain from `DH(new local, new remote)`.
Errors carry the session as already mutated. -/
def dhRatchet (s : DR) (remoteBytes : B) (g : Nat) : Except (Err × DR) DR :=
  let s0 := { s with prevN := s.recvN, recvN := 0, sendN := 0 }
  match parsePub remoteBytes with
  | none => .error (.invalidKey, s0)
  | some r =>
    let s1 := { s0 with remotePub := r }
    let d1 := DeriveRK s1.rootKey (sharedSecret s1.localPri r)
    let s2 := { s1 with rootKey := d1.1, recvChainKey := d1.2 }
    let s3 := { s2 with localPri := g }
    let d2 := DeriveRK s3.rootKey (sharedSecret g r)
    .ok { s3 with rootKey := d2.1, sendChainKey := d2.2 }

/-- Tail of Receive once the receiving chain for the incoming header is
current: in-chain skip up to Header.N, chain advance, final decryption.
Errors are returned together with the session state as mutated so far. -/
def receiveFinish (s2 : DR) (m : CMsg) (ad : B) : Except Err B × DR :=
  match skipMessageKeys s2 s2.recvN m.header.n with
  | .error e => (.error e, s2)
  | .ok s3 =>
    let next := DeriveCK s3.recvChainKey
    let s4 := { s3 with recvChainKey := next.1, recvN := (s3.recvN + 1) % u32 }
    match decB next.2 m.ct ad with
    | some pt => (.ok pt, s4)
    | none => (.error .decryptFailed, s4)

/-- The part of Receive after the skipped-key attempt: DH-ratchet detection
(with the PN-gap skip on the retiring chain), then the common tail. -/
def receiveMain (s : DR) (m : CMsg) (ad : B) (g : Nat) : Except Err B × DR :=
  if m.header.dh = pubB s.remotePub then receiveFinish s m ad
  else
    match skipMessageKeys s s.recvN m.header.pn with
    | .error e => (.error e, s)
    | .ok s1 =>
      match dhRatchet s1 m.header.dh g with
      | .error (e, sE) => (.error e, sE)
      | .ok s2 => receiveFinish s2 m ad

/-- Receive: first try the skipped-message-key store; on a hit with a
successful decryption delete the entry and return the plaintext.  On any
trySkippedMessageKeys error (a miss or a failed decryption) fall through to
the main path, exactly as the Go Receive does (`if err == nil`).  `g` is the
fresh ephemeral scalar drawn if a DH ratchet step runs. -/
def Receive (s : DR) (m : CMsg) (ad : B) (g : Nat) : Except Err B × DR :=
  match lookupSK s.skipped m.header.hid with
  | some mk =>
    match decB mk m.ct ad with
    | some pt => (.ok pt, { s with skipped := eraseSK s.skipped m.header.hid })
    | none => receiveMain s m ad g
  | none => receiveMain s m ad g

/-- The serializable session state (struct State in the doubleratchet
package): key material, counters, the skipped entries as a list of
(Header, key) pairs, and the serialized key pair. -/
structure StateR : Type where
  rootKey : B
  sendChainKey : B
  recvChainKey : B
  sendN : Nat
  recvN : Nat
  prevN : Nat
  skippedKeys : List (Header × B)
  localPriBytes : B
  remotePubBytes : B
deriving DecidableEq, Repr

/-- Serialize: marshal the session fields and every skipped entry (the JSON
encoding layer is kept abstract; `json.Marshal` of this record cannot
fail). -/
def Serialize (s : DR) : StateR :=
  { rootKey := s.rootKey
    sendChainKey := s.sendChainKey
    recvChainKey := s.recvChainKey
    sendN := s.sendN
    recvN := s.recvN
    prevN := s.prevN
    skippedKeys := s.skipped.map fun e => (⟨e.1.1, e.1.2.1, e.1.2.2⟩, e.2)
    localPriBytes := .priOf s.localPri
    remotePubBytes := .pubOf s.remotePub }

/-- Deserialize (src/pkg/doubleratchet/util.go): parse the key pair back,
restore the counters and chain keys, and rebuild the skipped-key map by
inserting every serialized entry under its Header.key(). -/
def Deserialize (st : StateR) : Except Err DR :=
  match parsePri st.localPriBytes with
  | none => .error .invalidKey
  | some a =>
    match parsePub st.remotePubBytes with
    | none => .error .invalidKey
    | some b =>
      .ok { localPri := a
            remotePub := b
            rootKey := st.rootKey
            sendChainKey := st.sendChainKey
            recvChainKey := st.recvChainKey
            sendN := st.sendN
            recvN := st.recvN
            prevN := st.prevN
            skipped := st.skippedKeys.foldl
              (fun m e => insertSK m e.1.hid e.2) [] }

/-! Basic laws of the skipped-message-key store. -/

@[simp] theorem lookupSK_nil (q : HeaderID) : lookupSK [] q = none := rfl

@[simp] theorem lookupSK_cons (e : HeaderID × B) (rest : List (HeaderID × B)) (q : HeaderID) :
    lookupSK (e :: rest) q = if e.1 = q then some e.2 else lookupSK rest q := rfl

@[simp] theorem eraseSK_nil (k : HeaderID) : eraseSK [] k = [] := rfl

@[simp] theorem eraseSK_cons (e : HeaderID × B) (rest : List (HeaderID × B)) (k : HeaderID) :
    eraseSK (e :: rest) k = if e.1 = k then eraseSK rest k else e :: eraseSK rest k := rfl

theorem lookupSK_append (l1 l2 : List (HeaderID × B)) (q : HeaderID) :
    lookupSK (l1 ++ l2) q =
      (match lookupSK l1 q with
       | some v => some v
       | none => lookupSK l2 q) := by
  induction l1 with
  | nil => simp [lookupSK]
  | cons e rest ih =>
    by_cases h : e.1 = q
    · simp [lookupSK, h]
    · simp only [List.cons_append, lookupSK, if_neg h]
      exact ih

theorem lookupSK_eraseSK (m : List (HeaderID × B)) (k q : HeaderID) :
    lookupSK (eraseSK m k) q = if q = k then none else lookupSK m q := by
  induction m with
  | nil => simp
  | cons e rest ih =>
    by_cases hek : e.1 = k
    · by_cases hqk : q = k
      · subst hqk
        simp [hek, ih]
      · have hkq : ¬ k = q := fun hc => hqk hc.symm
        simp [hek, ih, hqk, hkq]
    · by_cases heq : e.1 = q
      · have hqk : ¬ q = k := fun hc => hek (heq.trans hc)
        simp [hek, heq, hqk]
      · simp [hek, heq, ih]

theorem lookupSK_insertSK (m : List (HeaderID × B)) (k q : HeaderID) (v : B) :
    lookupSK (insertSK m k v) q = if q = k then some v else lookupSK m q := by
  unfold insertSK
  rw [lookupSK_append, lookupSK_eraseSK]
  by_cases hqk : q = k
  · simp [lookupSK, hqk]
  · have hkq : ¬ k = q := fun hc => hqk hc.symm
    cases lookupSK m q <;> simp [lookupSK, hqk, hkq]

/-! Characterization of the skip loop. -/

theorem skipLoop_const (s : DR) (u k : Nat) :
    (skipLoop s u k).localPri = s.localPri
    ∧ (skipLoop s u k).remotePub = s.remotePub
    ∧ (skipLoop s u k).prevN = s.prevN
    ∧ (skipLoop s u k).rootKey = s.rootKey
    ∧ (skipLoop s u k).sendChainKey = s.sendChainKey
    ∧ (skipLoop s u k).sendN = s.sendN := by
  induction k generalizing s u with
  | zero => exact ⟨rfl, rfl, rfl, rfl, rfl, rfl⟩
  | succ k ih => simpa [skipLoop] using ih _ (u + 1)

theorem skipLoop_recvChainKey (s : DR) (u k : Nat) :
    (skipLoop s u k).recvChainKey = B.ckNext^[k] s.recvChainKey := by
  induction k generalizing s u with
  | zero => rfl
  | succ k ih =>
    simp only [skipLoop, DeriveCK, ih]
    rw [← Function.iterate_succ_apply]

theorem skipLoop_recvN (s : DR) (u k : Nat) (hs : s.recvN < u32) :
    (skipLoop s u k).recvN = (s.recvN + k) % u32 := by
  induction k generalizing s u with
  | zero => simpa using (Nat.mod_eq_of_lt hs).symm
  | succ k ih =>
    have hlt : (s.recvN + 1) % u32 < u32 :=
      Nat.mod_lt _ (by norm_num [u32])
    show (skipLoop _ (u + 1) k).recvN = _
    rw [ih _ (u + 1) hlt]
    show ((s.recvN + 1) % u32 + k) % u32 = (s.recvN + (k + 1)) % u32
    rw [Nat.mod_add_mod]
    congr 1
    omega

theorem lookupSK_skipLoop (s : DR) (u k : Nat) (q : HeaderID) :
    lookupSK (skipLoop s u k).skipped q =
      if q.1 = pubB s.remotePub ∧ u ≤ q.2.1 ∧ q.2.1 < u + k ∧ q.2.2 = s.prevN
      then some (B.mkOf (B.ckNext^[q.2.1 - u] s.recvChainKey))
      else lookupSK s.skipped q := by
  induction k generalizing s u with
  | zero =>
    have h : ¬ (q.1 = pubB s.remotePub ∧ u ≤ q.2.1 ∧ q.2.1 < u + 0 ∧ q.2.2 = s.prevN) := by
      rintro ⟨-, h1, h2, -⟩
      omega
    rw [if_neg h]
    rfl
  | succ k ih =>
    simp only [skipLoop]
    rw [ih]
    simp only [DeriveCK]
    by_cases hq : q.1 = pubB s.remotePub ∧ u + 1 ≤ q.2.1 ∧ q.2.1 < u + 1 + k ∧ q.2.2 = s.prevN
    · have hq' : q.1 = pubB s.remotePub ∧ u ≤ q.2.1 ∧ q.2.1 < u + (k + 1) ∧ q.2.2 = s.prevN := by
        obtain ⟨h1, h2, h3, h4⟩ := hq
        exact ⟨h1, by omega, by omega, h4⟩
      rw [if_pos hq, if_pos hq']
      have hsub : q.2.1 - u = (q.2.1 - (u + 1)) + 1 := by omega
      rw [hsub, Function.iterate_succ_apply]
    · rw [if_neg hq, lookupSK_insertSK]
      by_cases heq : q = (pubB s.remotePub, u, s.prevN)
      · have hq' : q.1 = pubB s.remotePub ∧ u ≤ q.2.1 ∧ q.2.1 < u + (k + 1) ∧ q.2.2 = s.prevN := by
          subst heq
          refine ⟨rfl, le_refl _, ?_, rfl⟩
          show u < u + (k + 1)
          omega
        rw [if_pos heq, if_pos hq']
        subst heq
        simp
      · have hq' : ¬ (q.1 = pubB s.remotePub ∧ u ≤ q.2.1 ∧ q.2.1 < u + (k + 1) ∧ q.2.2 = s.prevN) := by
          rintro ⟨h1, h2, h3, h4⟩
          rcases Nat.lt_or_ge q.2.1 (u + 1) with hlt | hge
          · have hu : q.2.1 = u := by omega
            exact heq (by
              rcases q with ⟨qd, qn, qp⟩
              simp only at h1 h4 hu
              simp [h1, h4, hu])
          · exact hq ⟨h1, hge, by omega, h4⟩
        rw [if_neg heq, if_neg hq']

/-! Characterization of skipMessageKeys. -/

theorem skipMessageKeys_outOfOrder (s : DR) (u t : Nat) :
    skipMessageKeys s u t = .error .outOfOrder ↔ t < u := by
  unfold skipMessageKeys
  split_ifs with h1 h2
  · exact iff_of_true rfl h1
  · exact iff_of_false (by simp) h1
  · exact iff_of_false (by simp) h1

theorem skipMessageKeys_tooMany (s : DR) (u t : Nat) :
    skipMessageKeys s u t = .error .tooManySkipped ↔ u ≤ t ∧ MaxSkip ≤ t - u := by
  unfold skipMessageKeys
  split_ifs with h1 h2
  · exact iff_of_false (by simp) (by omega)
  · exact iff_of_true rfl ⟨by omega, h2⟩
  · exact iff_of_false (by simp) (by omega)

theorem skipMessageKeys_ok (s s' : DR) (u t : Nat) :
    skipMessageKeys s u t = .ok s' ↔ u ≤ t ∧ t - u < MaxSkip ∧ s' = skipLoop s u (t - u) := by
  unfold skipMessageKeys
  split_ifs with h1 h2
  · exact iff_of_false (by simp) (by omega)
  · exact iff_of_false (by simp) (by omega)
  · constructor
    · intro h
      obtain rfl : skipLoop s u (t - u) = s' := Except.ok.inj h
      exact ⟨by omega, by omega, rfl⟩
    · rintro ⟨-, -, rfl⟩
      rfl

/-! Iterated sending (consecutive Send calls with no intervening Receive). -/

/-- State of a session after `n` consecutive `Send` calls of the same
plaintext, associated data and nonce. -/
def iterSend (s : DR) (pt ad : B) (nonce : Option Nat) : Nat → DR
  | 0 => s
  | n + 1 => (Send (iterSend s pt ad nonce n) pt ad nonce).2

theorem Send_snd (s : DR) (pt ad : B) (nonce : Option Nat) :
    (Send s pt ad nonce).2 =
      { s with
        sendChainKey := (DeriveCK s.sendChainKey).1
        sendN := (s.sendN + 1) % u32 } := by
  unfold Send
  cases nonce <;> rfl

theorem Send_fst (s : DR) (pt ad : B) (n0 : Nat) :
    (Send s pt ad (some n0)).1 =
      .ok ⟨⟨pubB s.localPri, s.sendN, s.prevN⟩,
           .enc (B.mkOf s.sendChainKey) n0 pt ad⟩ := rfl

theorem iterSend_const (s : DR) (pt ad : B) (nonce : Option Nat) (n : Nat) :
    (iterSend s pt ad nonce n).localPri = s.localPri
    ∧ (iterSend s pt ad nonce n).remotePub = s.remotePub
    ∧ (iterSend s pt ad nonce n).prevN = s.prevN
    ∧ (iterSend s pt ad nonce n).recvN = s.recvN
    ∧ (iterSend s pt ad nonce n).recvChainKey = s.recvChainKey
    ∧ (iterSend s pt ad nonce n).rootKey = s.rootKey
    ∧ (iterSend s pt ad nonce n).skipped = s.skipped := by
  induction n with
  | zero => exact ⟨rfl, rfl, rfl, rfl, rfl, rfl, rfl⟩
  | succ n ih => simpa [iterSend, Send_snd] using ih

theorem iterSend_sendN (s : DR) (pt ad : B) (nonce : Option Nat) (n : Nat)
    (hs : s.sendN < u32) :
    (iterSend s pt ad nonce n).sendN = (s.sendN + n) % u32 := by
  induction n with
  | zero => simpa using (Nat.mod_eq_of_lt hs).symm
  | succ n ih =>
    show (Send _ pt ad nonce).2.sendN = _
    rw [Send_snd]
    show ((iterSend s pt ad nonce n).sendN + 1) % u32 = _
    rw [ih, Nat.mod_add_mod, Nat.add_assoc]

/-! Reduction lemmas for Receive, its sub-phases and dhRatchet. -/

theorem Receive_miss (s : DR) (m : CMsg) (ad : B) (g : Nat)
    (h : lookupSK s.skipped m.header.hid = none) :
    Receive s m ad g = receiveMain s m ad g := by
  unfold Receive
  simp only [h]

theorem Receive_hit_ok (s : DR) (m : CMsg) (ad : B) (g : Nat) (mk pt : B)
    (hhit : lookupSK s.skipped m.header.hid = some mk)
    (hdec : decB mk m.ct ad = some pt) :
    Receive s m ad g = (.ok pt, { s with skipped := eraseSK s.skipped m.header.hid }) := by
  unfold Receive
  simp only [hhit, hdec]

theorem Receive_hit_fail (s : DR) (m : CMsg) (ad : B) (g : Nat) (mk : B)
    (hhit : lookupSK s.skipped m.header.hid = some mk)
    (hdec : decB mk m.ct ad = none) :
    Receive s m ad g = receiveMain s m ad g := by
  unfold Receive
  simp only [hhit, hdec]

theorem receiveMain_same (s : DR) (m : CMsg) (ad : B) (g : Nat)
    (hdh : m.header.dh = pubB s.remotePub) :
    receiveMain s m ad g = receiveFinish s m ad := by
  unfold receiveMain
  rw [if_pos hdh]

theorem receiveMain_diff_skipErr (s : DR) (m : CMsg) (ad : B) (g : Nat) (e : Err)
    (hdh : ¬ m.header.dh = pubB s.remotePub)
    (hskip : skipMessageKeys s s.recvN m.header.pn = .error e) :
    receiveMain s m ad g = (.error e, s) := by
  unfold receiveMain
  rw [if_neg hdh]
  simp only [hskip]

theorem receiveMain_diff_ratchetErr (s s1 sE : DR) (m : CMsg) (ad : B) (g : Nat) (e : Err)
    (hdh : ¬ m.header.dh = pubB s.remotePub)
    (hskip : skipMessageKeys s s.recvN m.header.pn = .ok s1)
    (hr : dhRatchet s1 m.header.dh g = .error (e, sE)) :
    receiveMain s m ad g = (.error e, sE) := by
  unfold receiveMain
  rw [if_neg hdh]
  simp only [hskip, hr]

theorem receiveMain_diff_ok (s s1 s2 : DR) (m : CMsg) (ad : B) (g : Nat)
    (hdh : ¬ m.header.dh = pubB s.remotePub)
    (hskip : skipMessageKeys s s.recvN m.header.pn = .ok s1)
    (hr : dhRatchet s1 m.header.dh g = .ok s2) :
    receiveMain s m ad g = receiveFinish s2 m ad := by
  unfold receiveMain
  rw [if_neg hdh]
  simp only [hskip, hr]

theorem receiveFinish_skipErr (s2 : DR) (m : CMsg) (ad : B) (e : Err)
    (hskip : skipMessageKeys s2 s2.recvN m.header.n = .error e) :
    receiveFinish s2 m ad = (.error e, s2) := by
  unfold receiveFinish
  simp only [hskip]

theorem receiveFinish_decOk (s2 s3 : DR) (m : CMsg) (ad pt : B)
    (hskip : skipMessageKeys s2 s2.recvN m.header.n = .ok s3)
    (hdec : decB (B.mkOf s3.recvChainKey) m.ct ad = some pt) :
    receiveFinish s2 m ad =
      (.ok pt, { s3 with recvChainKey := .ckNext s3.recvChainKey
                         recvN := (s3.recvN + 1) % u32 }) := by
  unfold receiveFinish
  simp only [hskip, DeriveCK]
  simp only [hdec]

theorem receiveFinish_decFail (s2 s3 : DR) (m : CMsg) (ad : B)
    (hskip : skipMessageKeys s2 s2.recvN m.header.n = .ok s3)
    (hdec : decB (B.mkOf s3.recvChainKey) m.ct ad = none) :
    receiveFinish s2 m ad =
      (.error .decryptFailed,
       { s3 with recvChainKey := .ckNext s3.recvChainKey
                 recvN := (s3.recvN + 1) % u32 }) := by
  unfold receiveFinish
  simp only [hskip, DeriveCK]
  simp only [hdec]

theorem dhRatchet_ok (s : DR) (rb : B) (g r : Nat)
    (hr : parsePub rb = some r) :
    dhRatchet s rb g =
      .ok { localPri := g
            remotePub := r
            rootKey := (DeriveRK (DeriveRK s.rootKey (sharedSecret s.localPri r)).1
                          (sharedSecret g r)).1
            sendChainKey := (DeriveRK (DeriveRK s.rootKey (sharedSecret s.localPri r)).1
                          (sharedSecret g r)).2
            recvChainKey := (DeriveRK s.rootKey (sharedSecret s.localPri r)).2
            sendN := 0
            recvN := 0
            prevN := s.recvN
            skipped := s.skipped } := by
  unfold dhRatchet
  simp only [hr]

theorem dhRatchet_parseErr (s : DR) (rb : B) (g : Nat)
    (hr : parsePub rb = none) :
    dhRatchet s rb g =
      .error (.invalidKey, { s with prevN := s.recvN, recvN := 0, sendN := 0 }) := by
  unfold dhRatchet
  simp only [hr]

/-- C2: skipMessageKeys(until, target) fails with the out-of-order error
exactly when target < until, fails with the too-many-skipped error exactly
when target ≥ until and target − until ≥ MaxSkip (= 1000, strict ≥), and on
any failure performs no side effects on the session (stated here through
Receive: a failing in-chain skip returns the session unchanged; the checks
precede the loop, so the error cases build no new state); consequently, after
MaxSkip + 1 consecutive Sends with no intervening Receive, delivering only
the last message makes Receive return TooManySkipped (and leave the receiver
unchanged). -/
theorem C2_skipMessageKeys_bounds :
    (∀ (s : DR) (u t : Nat),
        (skipMessageKeys s u t = .error .outOfOrder ↔ t < u)
        ∧ (skipMessageKeys s u t = .error .tooManySkipped ↔ u ≤ t ∧ MaxSkip ≤ t - u)
        ∧ (∀ e : Err, skipMessageKeys s u t = .error e →
            ∀ (m : CMsg) (ad : B) (g : Nat),
              lookupSK s.skipped m.header.hid = none →
              m.header.dh = pubB s.remotePub →
              u = s.recvN → t = m.header.n →
              Receive s m ad g = (.error e, s)))
    ∧ (∀ (a b : Nat) (salt pt ad : B) (n0 g : Nat) (m : CMsg) (s' : DR),
        Send (iterSend (newDR a b salt) pt ad (some n0) MaxSkip) pt ad (some n0)
          = (.ok m, s') →
        Receive (newDR b a salt) m ad g = (.error .tooManySkipped, newDR b a salt)) := by
  constructor
  · intro s u t
    refine ⟨skipMessageKeys_outOfOrder s u t, skipMessageKeys_tooMany s u t, ?_⟩
    intro e he m ad g hmiss hdh hu ht
    subst hu
    subst ht
    rw [Receive_miss _ _ _ _ hmiss, receiveMain_same _ _ _ _ hdh,
      receiveFinish_skipErr _ _ _ _ he]
  · intro a b salt pt ad n0 g m s' hSend
    have hconst := iterSend_const (newDR a b salt) pt ad (some n0) MaxSkip
    have hsn : (iterSend (newDR a b salt) pt ad (some n0) MaxSkip).sendN = MaxSkip := by
      rw [iterSend_sendN _ _ _ _ _ (show (newDR a b salt).sendN < u32 by norm_num [newDR, u32])]
      norm_num [newDR, u32, MaxSkip]
    have hfst := congrArg Prod.fst hSend
    rw [Send_fst] at hfst
    have hm := Except.ok.inj hfst
    have hdr : m.header = ⟨pubB a, MaxSkip, 0⟩ := by
      rw [← hm, hconst.1, hsn, hconst.2.2.1]
      rfl
    have hmiss : lookupSK (newDR b a salt).skipped m.header.hid = none := rfl
    have hdh : m.header.dh = pubB (newDR b a salt).remotePub := by
      rw [hdr]
      rfl
    have hskip : skipMessageKeys (newDR b a salt) (newDR b a salt).recvN m.header.n
        = .error .tooManySkipped := by
      rw [hdr]
      exact (skipMessageKeys_tooMany _ _ _).mpr (by norm_num [newDR, MaxSkip])
    rw [Receive_miss _ _ _ _ hmiss, receiveMain_same _ _ _ _ hdh,
      receiveFinish_skipErr _ _ _ _ hskip]

/-- Witness for C2 at concrete inputs: the out-of-order bound fires at
(until, target) = (3, 1), and the skip-limit scenario at scalar key pairs
0 and 1 with plaintext [7]. -/
theorem C2_witness :
    skipMessageKeys (newDR 0 1 (B.bits [])) 3 1 = .error .outOfOrder
    ∧ (Send (iterSend (newDR 0 1 (B.bits [])) (B.bits [7]) (B.bits []) (some 0) MaxSkip)
        (B.bits [7]) (B.bits []) (some 0)).1.map
        (fun m => Receive (newDR 1 0 (B.bits [])) m (B.bits []) 0)
      = .ok (.error .tooManySkipped, newDR 1 0 (B.bits [])) := by
  constructor
  · exact ((C2_skipMessageKeys_bounds.1 (newDR 0 1 (B.bits [])) 3 1).1).mpr (by norm_num)
  · have hfst := Send_fst (iterSend (newDR 0 1 (B.bits [])) (B.bits [7]) (B.bits [])
      (some 0) MaxSkip) (B.bits [7]) (B.bits []) 0
    have hpair : Send (iterSend (newDR 0 1 (B.bits [])) (B.bits [7]) (B.bits [])
        (some 0) MaxSkip) (B.bits [7]) (B.bits []) (some 0)
        = (.ok ⟨⟨pubB (iterSend (newDR 0 1 (B.bits [])) (B.bits [7]) (B.bits [])
                  (some 0) MaxSkip).localPri,
                (iterSend (newDR 0 1 (B.bits [])) (B.bits [7]) (B.bits [])
                  (some 0) MaxSkip).sendN,
                (iterSend (newDR 0 1 (B.bits [])) (B.bits [7]) (B.bits [])
                  (some 0) MaxSkip).prevN⟩,
               .enc (B.mkOf (iterSend (newDR 0 1 (B.bits [])) (B.bits [7]) (B.bits [])
                  (some 0) MaxSkip).sendChainKey) 0 (B.bits [7]) (B.bits [])⟩,
           (Send (iterSend (newDR 0 1 (B.bits [])) (B.bits [7]) (B.bits [])
             (some 0) MaxSkip) (B.bits [7]) (B.bits []) (some 0)).2) := by
      rw [← hfst]
    have h := C2_skipMessageKeys_bounds.2 0 1 (B.bits []) (B.bits [7]) (B.bits []) 0 0
      _ _ hpair
    rw [hfst]
    exact congrArg Except.ok h

theorem parsePub_some {x : B} {r : Nat} (h : parsePub x = some r) : x = .pubOf r := by
  cases x <;> simp [parsePub] at h <;> simp [h]

/-- C8: a successful dhRatchet(newRemote) performs exactly these transitions:
PrevN becomes the old RecvN, RecvN and SendN become 0, RemotePublicKey
becomes newRemote; then (RootKey, RecvChainKey) := RootKDF(RootKey, DH(old
local private key, newRemote)); then a fresh local ephemeral key is
generated; then (RootKey, SendChainKey) := RootKDF(RootKey, DH(new local
private key, newRemote)); the last conjunct records that RootKDF feeds the
current root key to HKDF as the salt and the DH output as the input keying
material.  The skipped-key store is untouched. -/
theorem C8_dhRatchet_transitions (s : DR) (rb : B) (g r : Nat)
    (h : parsePub rb = some r) :
    ∃ s' : DR, dhRatchet s rb g = .ok s'
      ∧ s'.prevN = s.recvN
      ∧ s'.recvN = 0
      ∧ s'.sendN = 0
      ∧ s'.remotePub = r
      ∧ pubB s'.remotePub = rb
      ∧ s'.recvChainKey = (DeriveRK s.rootKey (sharedSecret s.localPri r)).2
      ∧ s'.localPri = g
      ∧ s'.rootKey = (DeriveRK (DeriveRK s.rootKey (sharedSecret s.localPri r)).1
          (sharedSecret g r)).1
      ∧ s'.sendChainKey = (DeriveRK (DeriveRK s.rootKey (sharedSecret s.localPri r)).1
          (sharedSecret g r)).2
      ∧ s'.skipped = s.skipped
      ∧ (∀ rk dh : B, DeriveRK rk dh
          = (.part (.hkdf dh rk rootInfo 64) 0 32, .part (.hkdf dh rk rootInfo 64) 32 32)) := by
  refine ⟨_, dhRatchet_ok s rb g r h, rfl, rfl, rfl, rfl, ?_, rfl, rfl, rfl, rfl, rfl,
    fun rk dh => rfl⟩
  rw [parsePub_some h]
  rfl

/-- Witness for C8 at a concrete input: session newDR 0 1, new remote key
pubOf 2, fresh scalar 5. -/
theorem C8_witness :
    parsePub (pubB 2) = some 2
    ∧ ∃ s' : DR, dhRatchet (newDR 0 1 (B.bits [])) (pubB 2) 5 = .ok s'
        ∧ s'.prevN = (newDR 0 1 (B.bits [])).recvN
        ∧ s'.recvN = 0
        ∧ s'.sendN = 0
        ∧ s'.remotePub = 2
        ∧ s'.localPri = 5 := by
  refine ⟨rfl, ?_⟩
  obtain ⟨s', h1, h2, h3, h4, h5, -, -, h6, -⟩ :=
    C8_dhRatchet_transitions (newDR 0 1 (B.bits [])) (pubB 2) 5 2 rfl
  exact ⟨s', h1, h2, h3, h4, h5, h6⟩

/-- C9 counterexample: the claim asserts that a failed Send leaves SendN
unchanged, but the Go Send increments SendN before `crypto.Encrypt` runs, so
on an encryption (entropy-read) failure SendN has already advanced from 0
to 1. -/
theorem C9_counterexample :
    (Send (newDR 0 1 (B.bits [])) (B.bits [7]) (B.bits []) none).1
        = .error .internalCrypto
    ∧ (newDR 0 1 (B.bits [])).sendN = 0
    ∧ (Send (newDR 0 1 (B.bits [])) (B.bits [7]) (B.bits []) none).2.sendN = 1 := by
  refine ⟨rfl, rfl, ?_⟩
  decide

/-- C9 amended: if Send(plaintext, ad) returns an error, the session
mutations already performed are exactly the step-1 advance of the send chain
key and the SendN increment (both precede encryption in the Go method);
RootKey, RecvChainKey, RecvN, PrevN, the DH key pair, and the skipped-key
store are unchanged by the failed call. -/
theorem C9_send_error_mutations (s : DR) (pt ad : B) (nonce : Option Nat) (e : Err)
    (h : (Send s pt ad nonce).1 = .error e) :
    (Send s pt ad nonce).2
      = { s with sendChainKey := .ckNext s.sendChainKey
                 sendN := (s.sendN + 1) % u32 } := by
  rw [Send_snd]
  rfl

/-- Witness for C9 at a concrete input: nonce draw fails on session
newDR 0 1. -/
theorem C9_witness :
    (Send (newDR 0 1 (B.bits [])) (B.bits [7]) (B.bits []) none).1
        = .error .internalCrypto
    ∧ (Send (newDR 0 1 (B.bits [])) (B.bits [7]) (B.bits []) none).2
      = { newDR 0 1 (B.bits []) with
            sendChainKey := .ckNext (newDR 0 1 (B.bits [])).sendChainKey
            sendN := (((newDR 0 1 (B.bits [])).sendN) + 1) % u32 } :=
  ⟨rfl, C9_send_error_mutations (newDR 0 1 (B.bits [])) (B.bits [7]) (B.bits [])
    none .internalCrypto rfl⟩

/-- C4: the claim (and the spec's store contract) says the skipped-key store
is addressed by the pair (DH bytes, N) only, so that a Receive matching a
stored entry's DH and N finds it regardless of the header's PN.  The code's
headerID (Header.key in the doubleratchet types) includes the PN field, and
skipMessageKeys stores entries under the receiver's own prevN, so two headers
that agree on DH and N but differ in PN designate different entries and the
lookup misses; evaluated here at the failing input: an entry stored under
(pubOf 0, N = 1, PN = 0) is not found by the header (pubOf 0, 1, 7), and a
session holding that entry answers the (dh, n)-matching message with an
OutOfOrder error instead of decrypting it with the stored key. -/
theorem C4_store_keyed_by_pn :
    Header.hid ⟨pubB 0, 1, 7⟩ ≠ Header.hid ⟨pubB 0, 1, 0⟩
    ∧ lookupSK [((pubB 0, 1, 0), B.mkOf (B.bits [2]))] (Header.hid ⟨pubB 0, 1, 7⟩) = none
    ∧ lookupSK [((pubB 0, 1, 0), B.mkOf (B.bits [2]))] (Header.hid ⟨pubB 0, 1, 0⟩)
        = some (B.mkOf (B.bits [2]))
    ∧ (Receive
        { localPri := 1, remotePub := 0, rootKey := B.bits [], sendChainKey := B.bits [],
          recvChainKey := B.bits [1], sendN := 0, recvN := 2, prevN := 0,
          skipped := [((pubB 0, 1, 0), B.mkOf (B.bits [2]))] }
        ⟨⟨pubB 0, 1, 7⟩, .enc (B.mkOf (B.bits [2])) 0 (B.bits [9]) (B.bits [])⟩
        (B.bits []) 0).1 = .error .outOfOrder
    ∧ (Receive
        { localPri := 1, remotePub := 0, rootKey := B.bits [], sendChainKey := B.bits [],
          recvChainKey := B.bits [1], sendN := 0, recvN := 2, prevN := 0,
          skipped := [((pubB 0, 1, 0), B.mkOf (B.bits [2]))] }
        ⟨⟨pubB 0, 1, 0⟩, .enc (B.mkOf (B.bits [2])) 0 (B.bits [9]) (B.bits [])⟩
        (B.bits []) 0).1 = .ok (B.bits [9]) := by
  refine ⟨by decide, rfl, rfl, ?_, rfl⟩
  decide

theorem eraseSK_of_notMem (m : List (HeaderID × B)) (k : HeaderID)
    (h : ∀ e ∈ m, e.1 ≠ k) : eraseSK m k = m := by
  induction m with
  | nil => rfl
  | cons e rest ih =>
    have he : ¬ e.1 = k := h e (by simp)
    simp only [eraseSK_cons, if_neg he]
    rw [ih fun e' he' => h e' (by simp [he'])]

theorem foldl_insertSK (l acc : List (HeaderID × B))
    (hnd : (acc.map Prod.fst ++ l.map Prod.fst).Nodup) :
    l.foldl (fun m e => insertSK m e.1 e.2) acc = acc ++ l := by
  induction l generalizing acc with
  | nil => simp
  | cons e rest ih =>
    have hknotin : ∀ e' ∈ acc, e'.1 ≠ e.1 := by
      intro e' he' hc
      have h1 : e'.1 ∈ acc.map Prod.fst := List.mem_map_of_mem _ he'
      have hdisj := List.disjoint_of_nodup_append hnd
      exact hdisj h1 (by simp [hc])
    have hins : insertSK acc e.1 e.2 = acc ++ [e] := by
      unfold insertSK
      rw [eraseSK_of_notMem _ _ hknotin]
    show List.foldl _ (insertSK acc e.1 e.2) rest = _
    rw [hins, ih (acc ++ [e]) (by simpa using hnd)]
    simp

/-- C7: Serialize always succeeds, and Deserialize(Serialize(s)) reconstructs
the identical session: same root key, chain keys, counters, key pair and
skipped-key store, hence every subsequent sequence of Send / Receive /
Serialize calls behaves identically on the reconstructed session (the states
are equal).  The hypothesis that the stored headerIDs are distinct holds for
every store built through insertSK (the Go map cannot hold duplicate
keys). -/
theorem C7_serialize_roundtrip (s : DR)
    (hnd : (s.skipped.map Prod.fst).Nodup) :
    Deserialize (Serialize s) = .ok s := by
  unfold Serialize Deserialize
  simp only [parsePri, parsePub]
  have hfold : (s.skipped.map fun e =>
        ((⟨e.1.1, e.1.2.1, e.1.2.2⟩ : Header), e.2)).foldl
        (fun m e => insertSK m e.1.hid e.2) []
      = s.skipped := by
    rw [List.foldl_map]
    exact foldl_insertSK s.skipped [] (by simpa using hnd)
  rw [hfold]

/-- Witness for C7 at a concrete session carrying two skipped entries. -/
theorem C7_witness :
    Deserialize (Serialize
      { newDR 0 1 (B.bits []) with
          skipped := [((pubB 5, 0, 0), B.bits [1]), ((pubB 5, 1, 0), B.bits [2])] })
      = .ok { newDR 0 1 (B.bits []) with
          skipped := [((pubB 5, 0, 0), B.bits [1]), ((pubB 5, 1, 0), B.bits [2])] } :=
  C7_serialize_roundtrip _ (by decide)

/-- C6 counterexample: after one delivered round (bob has RecvN = 1), a
message whose DH bytes are malformed ([1,2,3] parses as no P-256 point,
differing from the stored remote key) makes Receive return an error, but the
session state is NOT unchanged: dhRatchet resets the counters before parsing
the key, so RecvN drops back to 0 and PrevN becomes 1 on the erroring
call — contradicting the claim's "leaves the session state unchanged". -/
theorem C6_counterexample :
    (Send (newDR 0 1 (B.bits [])) (B.bits [5]) (B.bits []) (some 0)).1
        = .ok ⟨⟨pubB 0, 0, 0⟩,
               .enc (B.mkOf (newDR 0 1 (B.bits [])).sendChainKey) 0 (B.bits [5]) (B.bits [])⟩
    ∧ (Receive (newDR 1 0 (B.bits []))
        ⟨⟨pubB 0, 0, 0⟩,
         .enc (B.mkOf (newDR 0 1 (B.bits [])).sendChainKey) 0 (B.bits [5]) (B.bits [])⟩
        (B.bits []) 0).1 = .ok (B.bits [5])
    ∧ parsePub (B.bits [1, 2, 3]) = none
    ∧ (Receive
        (Receive (newDR 1 0 (B.bits []))
          ⟨⟨pubB 0, 0, 0⟩,
           .enc (B.mkOf (newDR 0 1 (B.bits [])).sendChainKey) 0 (B.bits [5]) (B.bits [])⟩
          (B.bits []) 0).2
        ⟨⟨B.bits [1, 2, 3], 0, 1⟩, B.bits []⟩ (B.bits []) 0).1 = .error .invalidKey
    ∧ (Receive (newDR 1 0 (B.bits []))
        ⟨⟨pubB 0, 0, 0⟩,
         .enc (B.mkOf (newDR 0 1 (B.bits [])).sendChainKey) 0 (B.bits [5]) (B.bits [])⟩
        (B.bits []) 0).2.recvN = 1
    ∧ (Receive
        (Receive (newDR 1 0 (B.bits []))
          ⟨⟨pubB 0, 0, 0⟩,
           .enc (B.mkOf (newDR 0 1 (B.bits [])).sendChainKey) 0 (B.bits [5]) (B.bits [])⟩
          (B.bits []) 0).2
        ⟨⟨B.bits [1, 2, 3], 0, 1⟩, B.bits []⟩ (B.bits []) 0).2.recvN = 0
    ∧ (Receive
        (Receive (newDR 1 0 (B.bits []))
          ⟨⟨pubB 0, 0, 0⟩,
           .enc (B.mkOf (newDR 0 1 (B.bits [])).sendChainKey) 0 (B.bits [5]) (B.bits [])⟩
          (B.bits []) 0).2
        ⟨⟨B.bits [1, 2, 3], 0, 1⟩, B.bits []⟩ (B.bits []) 0).2.prevN = 1 := by
  refine ⟨rfl, ?_, rfl, ?_, ?_, ?_, ?_⟩ <;> decide

/-- C6 amended: for every session and every CipheredMessage whose header DH
bytes are malformed (no parse as a P-256 point; hence they differ from the
stored remote key bytes, whose parse succeeds) and miss the skipped-key
store, Receive returns an error and does not panic (the model is total), but
the session state is not in general unchanged: the PN-gap skip may insert
skipped keys and advance the receive chain, and dhRatchet resets SendN/RecvN
and overwrites PrevN before the key parse fails. -/
theorem C6_malformed_dh_errors (s : DR) (m : CMsg) (ad : B) (g : Nat)
    (hmiss : lookupSK s.skipped m.header.hid = none)
    (hbad : parsePub m.header.dh = none) :
    ∃ e : Err, (Receive s m ad g).1 = .error e := by
  have hne : ¬ m.header.dh = pubB s.remotePub := by
    intro hc
    rw [hc] at hbad
    simp [pubB, parsePub] at hbad
  cases hsk : skipMessageKeys s s.recvN m.header.pn with
  | error e =>
    exact ⟨e, by rw [Receive_miss _ _ _ _ hmiss,
      receiveMain_diff_skipErr _ _ _ _ _ hne hsk]⟩
  | ok s1 =>
    exact ⟨.invalidKey, by rw [Receive_miss _ _ _ _ hmiss,
      receiveMain_diff_ratchetErr _ _ _ _ _ _ _ hne hsk
        (dhRatchet_parseErr _ _ _ hbad)]⟩

/-- Witness for C6 amended at a concrete input: fresh session, malformed DH
bytes [1,2,3], empty store. -/
theorem C6_witness :
    lookupSK (newDR 1 0 (B.bits [])).skipped
        (Header.hid ⟨B.bits [1, 2, 3], 0, 1⟩) = none
    ∧ parsePub (B.bits [1, 2, 3]) = none
    ∧ ∃ e : Err, (Receive (newDR 1 0 (B.bits []))
        ⟨⟨B.bits [1, 2, 3], 0, 1⟩, B.bits []⟩ (B.bits []) 0).1 = .error e :=
  ⟨rfl, rfl, C6_malformed_dh_errors (newDR 1 0 (B.bits []))
    ⟨⟨B.bits [1, 2, 3], 0, 1⟩, B.bits []⟩ (B.bits []) 0 rfl rfl⟩

/-- C5 counterexample: alice sends two messages; bob receives the second
(storing a skipped key for the first), then receives the first with the
wrong associated data.  The skipped-store lookup hits and AEAD decryption
fails, but Receive does NOT return the decryption error: trySkippedMessageKeys
errors are swallowed (`if err == nil` falls through to normal processing),
and the same-chain retired header yields OutOfOrder instead.  The stored
entry is indeed not deleted and the state unchanged — only the claim's
"returns that decryption error to the caller" is false. -/
theorem C5_counterexample :
    (Receive
      (Receive (newDR 1 0 (B.bits []))
        ⟨⟨pubB 0, 1, 0⟩,
         .enc (B.mkOf (B.ckNext (newDR 0 1 (B.bits [])).sendChainKey)) 1
           (B.bits [6]) (B.bits [])⟩
        (B.bits []) 0).2
      ⟨⟨pubB 0, 0, 0⟩,
       .enc (B.mkOf (newDR 0 1 (B.bits [])).sendChainKey) 0 (B.bits [5]) (B.bits [])⟩
      (B.bits [9]) 0)
    = (.error .outOfOrder,
       (Receive (newDR 1 0 (B.bits []))
        ⟨⟨pubB 0, 1, 0⟩,
         .enc (B.mkOf (B.ckNext (newDR 0 1 (B.bits [])).sendChainKey)) 1
           (B.bits [6]) (B.bits [])⟩
        (B.bits []) 0).2)
    ∧ lookupSK
        (Receive (newDR 1 0 (B.bits []))
          ⟨⟨pubB 0, 1, 0⟩,
           .enc (B.mkOf (B.ckNext (newDR 0 1 (B.bits [])).sendChainKey)) 1
             (B.bits [6]) (B.bits [])⟩
          (B.bits []) 0).2.skipped
        (Header.hid ⟨pubB 0, 0, 0⟩)
      = some (B.mkOf (newDR 1 0 (B.bits [])).recvChainKey)
    ∧ decB (B.mkOf (newDR 1 0 (B.bits [])).recvChainKey)
        (.enc (B.mkOf (newDR 0 1 (B.bits [])).sendChainKey) 0 (B.bits [5]) (B.bits []))
        (B.bits [9]) = none
    ∧ Err.outOfOrder ≠ Err.decryptFailed := by
  refine ⟨?_, ?_, ?_, by decide⟩ <;> decide

/-- C5 amended: when the incoming header matches an entry in the skipped-key
store but AEAD decryption with the stored key fails, the stored entry is not
deleted; the decryption error, however, is not returned to the caller:
Receive falls through to normal processing (trySkippedMessageKeys errors are
tested only with `err == nil`), and for a same-chain header whose N is below
RecvN it returns OutOfOrder with the session state unchanged. -/
theorem C5_skipped_decfail_falls_through (s : DR) (m : CMsg) (ad : B) (g : Nat) (mk : B)
    (hhit : lookupSK s.skipped m.header.hid = some mk)
    (hdec : decB mk m.ct ad = none)
    (hdh : m.header.dh = pubB s.remotePub)
    (hn : m.header.n < s.recvN) :
    Receive s m ad g = (.error .outOfOrder, s) := by
  rw [Receive_hit_fail _ _ _ _ _ hhit hdec, receiveMain_same _ _ _ _ hdh,
    receiveFinish_skipErr _ _ _ _ ((skipMessageKeys_outOfOrder _ _ _).mpr hn)]

/-- Witness for C5 amended: the same two-message scenario as the
counterexample, discharging the hit / failed-decryption / same-chain /
retired-index hypotheses at concrete values. -/
theorem C5_witness :
    Receive
      (Receive (newDR 1 0 (B.bits []))
        ⟨⟨pubB 0, 1, 0⟩,
         .enc (B.mkOf (B.ckNext (newDR 0 1 (B.bits [])).sendChainKey)) 1
           (B.bits [6]) (B.bits [])⟩
        (B.bits []) 0).2
      ⟨⟨pubB 0, 0, 0⟩,
       .enc (B.mkOf (newDR 0 1 (B.bits [])).sendChainKey) 0 (B.bits [5]) (B.bits [])⟩
      (B.bits [9]) 0
    = (.error .outOfOrder,
       (Receive (newDR 1 0 (B.bits []))
        ⟨⟨pubB 0, 1, 0⟩,
         .enc (B.mkOf (B.ckNext (newDR 0 1 (B.bits [])).sendChainKey)) 1
           (B.bits [6]) (B.bits [])⟩
        (B.bits []) 0).2) :=
  C5_skipped_decfail_falls_through _ _ _ _
    (B.mkOf (newDR 1 0 (B.bits [])).recvChainKey)
    (by decide) (by decide) (by decide) (by decide)

/-- C10: Receive commits a DH ratchet for any header whose DH field parses as
a valid P-256 point different from the stored RemotePublicKey — with no
freshness or authenticity check on that key (the theorem holds for every
parsing scalar r, including a previously retired remote key carried in a
replayed old-chain message) — and there is no rollback on later failure:
whenever the skip-bound checks pass but the final AEAD decryption fails, the
erroring call still leaves the session re-keyed: RemotePublicKey replaced by
r, a fresh local ephemeral g installed, PrevN/RecvN/SendN reset around the
ratchet, and both chains re-derived from the new root key. -/
theorem C10_ratchet_commits_without_rollback
    (s : DR) (m : CMsg) (ad : B) (g r : Nat)
    (hmiss : lookupSK s.skipped m.header.hid = none)
    (hdh : ¬ m.header.dh = pubB s.remotePub)
    (hparse : parsePub m.header.dh = some r)
    (hpn1 : s.recvN ≤ m.header.pn)
    (hpn2 : m.header.pn - s.recvN < MaxSkip)
    (hn : m.header.n < MaxSkip)
    (hrw : s.recvN < u32)
    (hpnw : m.header.pn < u32)
    (hdec : decB (B.mkOf (B.ckNext^[m.header.n]
        (DeriveRK s.rootKey (sharedSecret s.localPri r)).2)) m.ct ad = none) :
    ∃ s' : DR, Receive s m ad g = (.error .decryptFailed, s')
      ∧ s'.remotePub = r
      ∧ s'.localPri = g
      ∧ s'.prevN = m.header.pn
      ∧ s'.sendN = 0
      ∧ s'.recvN = (m.header.n + 1) % u32
      ∧ s'.rootKey = (DeriveRK (DeriveRK s.rootKey (sharedSecret s.localPri r)).1
          (sharedSecret g r)).1
      ∧ s'.sendChainKey = (DeriveRK (DeriveRK s.rootKey (sharedSecret s.localPri r)).1
          (sharedSecret g r)).2
      ∧ s'.recvChainKey = .ckNext (B.ckNext^[m.header.n]
          (DeriveRK s.rootKey (sharedSecret s.localPri r)).2) := by
  have hsk1 : skipMessageKeys s s.recvN m.header.pn
      = .ok (skipLoop s s.recvN (m.header.pn - s.recvN)) :=
    (skipMessageKeys_ok _ _ _ _).mpr ⟨hpn1, hpn2, rfl⟩
  obtain ⟨c1, c2, c3, c4, c5, c6⟩ := skipLoop_const s s.recvN (m.header.pn - s.recvN)
  have hs1recvN : (skipLoop s s.recvN (m.header.pn - s.recvN)).recvN = m.header.pn := by
    rw [skipLoop_recvN _ _ _ hrw,
      show s.recvN + (m.header.pn - s.recvN) = m.header.pn by omega]
    exact Nat.mod_eq_of_lt hpnw
  have hr2 := dhRatchet_ok (skipLoop s s.recvN (m.header.pn - s.recvN)) m.header.dh g r
    hparse
  rw [c1, c4, hs1recvN] at hr2
  rw [Receive_miss _ _ _ _ hmiss,
    receiveMain_diff_ok _ _ _ _ _ _ hdh hsk1 hr2]
  have hsk2 : skipMessageKeys
      { localPri := g
        remotePub := r
        rootKey := (DeriveRK (DeriveRK s.rootKey (sharedSecret s.localPri r)).1
            (sharedSecret g r)).1
        sendChainKey := (DeriveRK (DeriveRK s.rootKey (sharedSecret s.localPri r)).1
            (sharedSecret g r)).2
        recvChainKey := (DeriveRK s.rootKey (sharedSecret s.localPri r)).2
        sendN := 0
        recvN := 0
        prevN := m.header.pn
        skipped := (skipLoop s s.recvN (m.header.pn - s.recvN)).skipped }
      0 m.header.n
      = .ok (skipLoop
          { localPri := g
            remotePub := r
            rootKey := (DeriveRK (DeriveRK s.rootKey (sharedSecret s.localPri r)).1
                (sharedSecret g r)).1
            sendChainKey := (DeriveRK (DeriveRK s.rootKey (sharedSecret s.localPri r)).1
                (sharedSecret g r)).2
            recvChainKey := (DeriveRK s.rootKey (sharedSecret s.localPri r)).2
            sendN := 0
            recvN := 0
            prevN := m.header.pn
            skipped := (skipLoop s s.recvN (m.header.pn - s.recvN)).skipped }
          0 m.header.n) := by
    refine (skipMessageKeys_ok _ _ _ _).mpr ⟨Nat.zero_le _, ?_, ?_⟩
    · simpa using hn
    · rw [Nat.sub_zero]
  obtain ⟨d1, d2, d3, d4, d5, d6⟩ := skipLoop_const
    { localPri := g
      remotePub := r
      rootKey := (DeriveRK (DeriveRK s.rootKey (sharedSecret s.localPri r)).1
          (sharedSecret g r)).1
      sendChainKey := (DeriveRK (DeriveRK s.rootKey (sharedSecret s.localPri r)).1
          (sharedSecret g r)).2
      recvChainKey := (DeriveRK s.rootKey (sharedSecret s.localPri r)).2
      sendN := 0
      recvN := 0
      prevN := m.header.pn
      skipped := (skipLoop s s.recvN (m.header.pn - s.recvN)).skipped }
    0 m.header.n
  have hckr := skipLoop_recvChainKey
    { localPri := g
      remotePub := r
      rootKey := (DeriveRK (DeriveRK s.rootKey (sharedSecret s.localPri r)).1
          (sharedSecret g r)).1
      sendChainKey := (DeriveRK (DeriveRK s.rootKey (sharedSecret s.localPri r)).1
          (sharedSecret g r)).2
      recvChainKey := (DeriveRK s.rootKey (sharedSecret s.localPri r)).2
      sendN := 0
      recvN := 0
      prevN := m.header.pn
      skipped := (skipLoop s s.recvN (m.header.pn - s.recvN)).skipped }
    0 m.header.n
  have hrn := skipLoop_recvN
    { localPri := g
      remotePub := r
      rootKey := (DeriveRK (DeriveRK s.rootKey (sharedSecret s.localPri r)).1
          (sharedSecret g r)).1
      sendChainKey := (DeriveRK (DeriveRK s.rootKey (sharedSecret s.localPri r)).1
          (sharedSecret g r)).2
      recvChainKey := (DeriveRK s.rootKey (sharedSecret s.localPri r)).2
      sendN := 0
      recvN := 0
      prevN := m.header.pn
      skipped := (skipLoop s s.recvN (m.header.pn - s.recvN)).skipped }
    0 m.header.n (by norm_num [u32])
  have hdec' : decB (B.mkOf (skipLoop
      { localPri := g
        remotePub := r
        rootKey := (DeriveRK (DeriveRK s.rootKey (sharedSecret s.localPri r)).1
            (sharedSecret g r)).1
        sendChainKey := (DeriveRK (DeriveRK s.rootKey (sharedSecret s.localPri r)).1
            (sharedSecret g r)).2
        recvChainKey := (DeriveRK s.rootKey (sharedSecret s.localPri r)).2
        sendN := 0
        recvN := 0
        prevN := m.header.pn
        skipped := (skipLoop s s.recvN (m.header.pn - s.recvN)).skipped }
      0 m.header.n).recvChainKey) m.ct ad = none := by
    rw [hckr]
    exact hdec
  rw [receiveFinish_decFail _ _ _ _ hsk2 hdec']
  refine ⟨_, rfl, by rw [d2], by rw [d1], by rw [d3], by rw [d6], ?_, by rw [d4],
    by rw [d5], by rw [hckr]⟩
  show ((skipLoop _ 0 m.header.n).recvN + 1) % u32 = _
  rw [hrn]
  show (((0 : Nat) + m.header.n) % u32 + 1) % u32 = _
  rw [Nat.mod_add_mod, Nat.zero_add]

/-- Witness for C10 at a concrete input: fresh session newDR 0 1, incoming
header carrying the unauthenticated key pubOf 7, garbage ciphertext, fresh
ephemeral scalar 9. -/
theorem C10_witness :
    lookupSK (newDR 0 1 (B.bits [])).skipped (Header.hid ⟨pubB 7, 0, 0⟩) = none
    ∧ parsePub (pubB 7) = some 7
    ∧ ∃ s' : DR, Receive (newDR 0 1 (B.bits [])) ⟨⟨pubB 7, 0, 0⟩, B.bits []⟩
          (B.bits []) 9 = (.error .decryptFailed, s')
        ∧ s'.remotePub = 7
        ∧ s'.localPri = 9
        ∧ s'.sendN = 0 := by
  refine ⟨rfl, rfl, ?_⟩
  obtain ⟨s', h1, h2, h3, -, h4, -, -, -, -⟩ :=
    C10_ratchet_commits_without_rollback (newDR 0 1 (B.bits []))
      ⟨⟨pubB 7, 0, 0⟩, B.bits []⟩ (B.bits []) 9 7
      rfl (by decide) rfl (Nat.le_refl 0) (by norm_num [MaxSkip])
      (by norm_num [MaxSkip]) (by norm_num [newDR, u32]) (by norm_num [u32]) rfl
  exact ⟨s', h1, h2, h3, h4⟩

theorem sharedSecret_comm (a b : Nat) : sharedSecret b a = sharedSecret a b := by
  unfold sharedSecret
  rcases Nat.lt_trichotomy a b with h | h | h
  · rw [if_neg (by omega), if_pos (by omega)]
  · subst h
    rfl
  · rw [if_pos (by omega), if_neg (by omega)]

/-- The reflection-resistant chain-direction choice in init: for distinct key
pairs, the receiver's receive chain key equals the sender's send chain key
(the lexicographically lesser side uses Chain-1 to send). -/
theorem newDR_chain_match (a b : Nat) (salt : B) (hab : a ≠ b) :
    (newDR b a salt).recvChainKey = (newDR a b salt).sendChainKey := by
  have hss : sharedSecret b a = sharedSecret a b := sharedSecret_comm a b
  by_cases hl : a < b
  · have hba : ¬ b < a := by omega
    simp [newDR, pubLt, pubB, hss, hl, hba]
  · have hba : b < a := by omega
    simp [newDR, pubLt, pubB, hss, hl, hba]

/-- C1: for every pair of sessions alice and bob created by New as peers
(alice from (priOf a, pubOf b, salt) and bob from (priOf b, pubOf a, salt)
with the same salt) with distinct key pairs, and for every plaintext pt and
associated data ad: if alice.Send(pt, ad) returns a CipheredMessage m without
error, then bob.Receive(m, ad) succeeds and returns plaintext equal to pt.
The statement quantifies over both scalars, so it covers the symmetric case
with the roles of alice and bob swapped. -/
theorem C1_roundtrip (a b : Nat) (salt pt ad : B) (n0 g : Nat)
    (alice bob : DR) (m : CMsg) (s' : DR)
    (hab : a ≠ b)
    (hA : New (.priOf a) (.pubOf b) salt = .ok alice)
    (hB : New (.priOf b) (.pubOf a) salt = .ok bob)
    (hSend : Send alice pt ad (some n0) = (.ok m, s')) :
    (Receive bob m ad g).1 = .ok pt := by
  have hA' : alice = newDR a b salt := (Except.ok.inj hA).symm
  have hB' : bob = newDR b a salt := (Except.ok.inj hB).symm
  subst hA'
  subst hB'
  have hfst := congrArg Prod.fst hSend
  rw [Send_fst] at hfst
  have hm : m = ⟨⟨pubB a, 0, 0⟩,
      .enc (B.mkOf (newDR a b salt).sendChainKey) n0 pt ad⟩ := by
    rw [← Except.ok.inj hfst]
    rfl
  subst hm
  have hmiss : lookupSK (newDR b a salt).skipped
      (Header.hid ⟨pubB a, 0, 0⟩) = none := rfl
  have hdec : decB (B.mkOf (newDR b a salt).recvChainKey)
      (.enc (B.mkOf (newDR a b salt).sendChainKey) n0 pt ad) ad = some pt := by
    rw [newDR_chain_match a b salt hab]
    show (if B.mkOf (newDR a b salt).sendChainKey
            = B.mkOf (newDR a b salt).sendChainKey ∧ ad = ad
          then some pt else none) = some pt
    rw [if_pos ⟨rfl, rfl⟩]
  have hskip : skipMessageKeys (newDR b a salt) (newDR b a salt).recvN
      ((⟨⟨pubB a, 0, 0⟩,
        .enc (B.mkOf (newDR a b salt).sendChainKey) n0 pt ad⟩ : CMsg).header.n)
      = .ok (skipLoop (newDR b a salt) (newDR b a salt).recvN 0) :=
    (skipMessageKeys_ok _ _ _ _).mpr ⟨Nat.le_refl _, by norm_num [MaxSkip], rfl⟩
  rw [Receive_miss _ _ _ _ hmiss, receiveMain_same _ _ _ _ rfl,
    receiveFinish_decOk _ _ _ _ _ hskip hdec]

/-- Witness for C1 at concrete inputs: scalars 0 and 1, plaintext [3],
associated data [2], nonce 5. -/
theorem C1_witness :
    New (B.priOf 0) (B.pubOf 1) (B.bits []) = .ok (newDR 0 1 (B.bits []))
    ∧ New (B.priOf 1) (B.pubOf 0) (B.bits []) = .ok (newDR 1 0 (B.bits []))
    ∧ (Receive (newDR 1 0 (B.bits []))
        ⟨⟨pubB 0, 0, 0⟩,
         .enc (B.mkOf (newDR 0 1 (B.bits [])).sendChainKey) 5 (B.bits [3]) (B.bits [2])⟩
        (B.bits [2]) 0).1 = .ok (B.bits [3]) := by
  refine ⟨rfl, rfl, ?_⟩
  exact C1_roundtrip 0 1 (B.bits []) (B.bits [3]) (B.bits [2]) 5 0
    (newDR 0 1 (B.bits [])) (newDR 1 0 (B.bits []))
    ⟨⟨pubB 0, 0, 0⟩,
     .enc (B.mkOf (newDR 0 1 (B.bits [])).sendChainKey) 5 (B.bits [3]) (B.bits [2])⟩
    _ (by decide) rfl rfl rfl

/-! Machinery for the duplicate-rejection claim: two measures on symbolic
byte strings (the root-KDF nesting depth and the chain-ratchet length), a
membership inversion for the store lookup, an inversion for successful
decryption, and the session invariant maintained by honest use. -/

/-- Number of root-KDF (HKDF) nestings inside a key term; chain-key steps and
byte slices do not change it.  Every DH ratchet step strictly increases the
depth of the keys it derives, so a key derived from the current root key can
never coincide with one stored before that root key existed. -/
def rdepth : B → Nat
  | .bits _ => 0
  | .priOf _ => 0
  | .pubOf _ => 0
  | .secret _ _ => 0
  | .hkdf ikm salt _ _ => max (rdepth ikm) (rdepth salt) + 1
  | .part src _ _ => rdepth src
  | .ckNext ck => rdepth ck
  | .mkOf ck => rdepth ck
  | .enc _ _ _ _ => 0

/-- Number of leading chain-ratchet (HMAC 0x02) steps of a key term: the
position of a chain key within its chain. -/
def cklen : B → Nat
  | .ckNext ck => cklen ck + 1
  | _ => 0

theorem rdepth_iter (k : Nat) (c : B) : rdepth (B.ckNext^[k] c) = rdepth c := by
  induction k with
  | zero => rfl
  | succ k ih => rw [Function.iterate_succ_apply', rdepth, ih]

theorem cklen_iter (k : Nat) (c : B) : cklen (B.ckNext^[k] c) = k + cklen c := by
  induction k with
  | zero =>
    show cklen c = 0 + cklen c
    omega
  | succ k ih =>
    rw [Function.iterate_succ_apply', cklen, ih]
    omega

theorem rdepth_sharedSecret (a b : Nat) : rdepth (sharedSecret a b) = 0 := by
  unfold sharedSecret
  split_ifs <;> rfl

theorem rdepth_DeriveRK_snd (rk dh : B) :
    rdepth (DeriveRK rk dh).2 = max (rdepth dh) (rdepth rk) + 1 := rfl

theorem lookupSK_some_mem {l : List (HeaderID × B)} {q : HeaderID} {v : B}
    (h : lookupSK l q = some v) : (q, v) ∈ l := by
  induction l with
  | nil => simp [lookupSK] at h
  | cons e rest ih =>
    rcases e with ⟨k, v0⟩
    by_cases hk : k = q
    · subst hk
      rw [lookupSK_cons, if_pos rfl] at h
      obtain rfl : v0 = v := Option.some.inj h
      simp
    · rw [lookupSK_cons, if_neg hk] at h
      simp [ih h]

theorem decB_some_inv {k ct ad p : B} (h : decB k ct ad = some p) :
    ∃ n1 : Nat, ct = .enc k n1 p ad := by
  cases ct <;> simp [decB] at h
  case enc mk' n1 pt' ad' =>
    obtain ⟨⟨h1, h2⟩, h3⟩ := h
    exact ⟨n1, by rw [h1, h2, h3]⟩

/-- Session invariant maintained by honest use (it holds for New's output and
is preserved by Send and by successful Receive): every skipped entry stored
under the current remote public key has a message index strictly below RecvN
(its chain has already advanced past it), and every stored message key, as
well as the current receive chain key, was derived at or below the current
root-KDF depth. -/
def Inv (s : DR) : Prop :=
  (∀ e ∈ s.skipped,
      (e.1.1 = pubB s.remotePub → e.1.2.1 < s.recvN)
      ∧ rdepth e.2 ≤ rdepth s.rootKey)
  ∧ rdepth s.recvChainKey ≤ rdepth s.rootKey

instance (s : DR) : Decidable (Inv s) := by
  unfold Inv
  infer_instance

/-- A same-chain receive of a ciphertext whose key lies strictly behind the
current receive chain position always errors: either the in-chain skip
rejects the header, or the freshly derived message key sits at a later chain
position than the ciphertext's key (the chain-ratchet length differs), so
the final decryption fails. -/
theorem receiveMain_behind_chain_errors (t : DR) (m : CMsg) (ad : B) (g : Nat)
    (X : B) (n1 : Nat) (p : B)
    (hdh : m.header.dh = pubB t.remotePub)
    (hct : m.ct = .enc (B.mkOf X) n1 p ad)
    (hck : t.recvChainKey = .ckNext X) :
    ∃ e : Err, (receiveMain t m ad g).1 = .error e := by
  rw [receiveMain_same _ _ _ _ hdh]
  cases hsk : skipMessageKeys t t.recvN m.header.n with
  | error e => exact ⟨e, by rw [receiveFinish_skipErr _ _ _ _ hsk]⟩
  | ok t3 =>
    obtain ⟨hu, hb, ht3⟩ := (skipMessageKeys_ok _ _ _ _).mp hsk
    have hck3 : t3.recvChainKey
        = B.ckNext^[m.header.n - t.recvN] t.recvChainKey := by
      rw [ht3, skipLoop_recvChainKey]
    have hne : ¬ B.mkOf X = B.mkOf t3.recvChainKey := by
      intro hc
      have hX := B.mkOf.inj hc
      have := congrArg cklen hX
      rw [hck3, hck, cklen_iter] at this
      simp only [cklen] at this
      omega
    have hdecf : decB (B.mkOf t3.recvChainKey) m.ct ad = none := by
      rw [hct]
      show (if B.mkOf X = B.mkOf t3.recvChainKey ∧ ad = ad
            then some p else none) = none
      rw [if_neg]
      rintro ⟨hc, -⟩
      exact hne hc
    exact ⟨.decryptFailed, by rw [receiveFinish_decFail _ _ _ _ hsk hdecf]⟩

/-- A new-chain receive of a ciphertext whose key was derived at or below the
current root-KDF depth always errors: either one of the skips or the key
parse rejects, or the message key derived from the post-ratchet receive
chain sits one root-KDF level deeper than the ciphertext's key, so the final
decryption fails. -/
theorem receiveMain_diff_stale_errors (t : DR) (m : CMsg) (ad : B) (g : Nat)
    (mk : B) (n1 : Nat) (p : B)
    (hct : m.ct = .enc mk n1 p ad)
    (hbound : rdepth mk ≤ rdepth t.rootKey)
    (hdh : ¬ m.header.dh = pubB t.remotePub) :
    ∃ e : Err, (receiveMain t m ad g).1 = .error e := by
  cases hsk1 : skipMessageKeys t t.recvN m.header.pn with
  | error e =>
    exact ⟨e, by rw [receiveMain_diff_skipErr _ _ _ _ _ hdh hsk1]⟩
  | ok t1 =>
    cases hp : parsePub m.header.dh with
    | none =>
      exact ⟨.invalidKey, by rw [receiveMain_diff_ratchetErr _ _ _ _ _ _ _ hdh hsk1
        (dhRatchet_parseErr _ _ _ hp)]⟩
    | some r =>
      obtain ⟨hu1, hb1, ht1⟩ := (skipMessageKeys_ok _ _ _ _).mp hsk1
      have ht1root : t1.rootKey = t.rootKey := by
        rw [ht1]
        exact (skipLoop_const _ _ _).2.2.2.1
      rw [receiveMain_diff_ok _ _ _ _ _ _ hdh hsk1 (dhRatchet_ok t1 m.header.dh g r hp)]
      cases hsk2 : skipMessageKeys
          { localPri := g
            remotePub := r
            rootKey := (DeriveRK (DeriveRK t1.rootKey (sharedSecret t1.localPri r)).1
                (sharedSecret g r)).1
            sendChainKey := (DeriveRK (DeriveRK t1.rootKey (sharedSecret t1.localPri r)).1
                (sharedSecret g r)).2
            recvChainKey := (DeriveRK t1.rootKey (sharedSecret t1.localPri r)).2
            sendN := 0
            recvN := 0
            prevN := t1.recvN
            skipped := t1.skipped }
          0 m.header.n with
      | error e => exact ⟨e, by rw [receiveFinish_skipErr _ _ _ _ hsk2]⟩
      | ok t3 =>
        obtain ⟨-, -, ht3⟩ := (skipMessageKeys_ok _ _ _ _).mp hsk2
        have hck3 : t3.recvChainKey = B.ckNext^[m.header.n - 0]
            (DeriveRK t1.rootKey (sharedSecret t1.localPri r)).2 := by
          rw [ht3, skipLoop_recvChainKey]
        have hdepth : rdepth (B.mkOf t3.recvChainKey) = rdepth t.rootKey + 1 := by
          show rdepth t3.recvChainKey = _
          rw [hck3, rdepth_iter, rdepth_DeriveRK_snd, rdepth_sharedSecret, ht1root]
          omega
        have hne : ¬ mk = B.mkOf t3.recvChainKey := by
          intro hc
          have := congrArg rdepth hc
          rw [hdepth] at this
          omega
        have hdecf : decB (B.mkOf t3.recvChainKey) m.ct ad = none := by
          rw [hct]
          show (if mk = B.mkOf t3.recvChainKey ∧ ad = ad
                then some p else none) = none
          rw [if_neg]
          rintro ⟨hc, -⟩
          exact hne hc
        exact ⟨.decryptFailed, by rw [receiveFinish_decFail _ _ _ _ hsk2 hdecf]⟩

/-- Inversion of a successful main-path Receive: afterwards the stored remote
key matches the header's DH bytes, the lookup of this header's fingerprint is
unchanged (only fingerprints with a smaller message index, or under a
different DH key, were inserted), and the receive chain has advanced exactly
one step past the message key that decrypted the ciphertext. -/
theorem receiveMain_ok_fields (s : DR) (m : CMsg) (ad : B) (g : Nat) (pt : B) (s' : DR)
    (h : receiveMain s m ad g = (.ok pt, s')) :
    m.header.dh = pubB s'.remotePub
    ∧ lookupSK s'.skipped m.header.hid = lookupSK s.skipped m.header.hid
    ∧ ∃ X : B, s'.recvChainKey = .ckNext X ∧ decB (B.mkOf X) m.ct ad = some pt := by
  by_cases hdh : m.header.dh = pubB s.remotePub
  · rw [receiveMain_same _ _ _ _ hdh] at h
    cases hsk : skipMessageKeys s s.recvN m.header.n with
    | error e =>
      rw [receiveFinish_skipErr _ _ _ _ hsk] at h
      simp at h
    | ok s3 =>
      cases hdec : decB (B.mkOf s3.recvChainKey) m.ct ad with
      | none =>
        rw [receiveFinish_decFail _ _ _ _ hsk hdec] at h
        simp at h
      | some pt0 =>
        rw [receiveFinish_decOk _ _ _ _ _ hsk hdec] at h
        injection h with h1 h2
        obtain rfl : pt0 = pt := Except.ok.inj h1
        obtain ⟨hu, hb, ht3⟩ := (skipMessageKeys_ok _ _ _ _).mp hsk
        subst h2
        refine ⟨?_, ?_, s3.recvChainKey, rfl, hdec⟩
        · show m.header.dh = pubB s3.remotePub
          rw [ht3, (skipLoop_const _ _ _).2.1]
          exact hdh
        · show lookupSK s3.skipped m.header.hid = _
          rw [ht3, lookupSK_skipLoop, if_neg]
          rintro ⟨-, h2', h3', -⟩
          have hn : m.header.hid.2.1 = m.header.n := rfl
          omega
  · cases hsk1 : skipMessageKeys s s.recvN m.header.pn with
    | error e =>
      rw [receiveMain_diff_skipErr _ _ _ _ _ hdh hsk1] at h
      simp at h
    | ok s1 =>
      cases hp : parsePub m.header.dh with
      | none =>
        rw [receiveMain_diff_ratchetErr _ _ _ _ _ _ _ hdh hsk1
          (dhRatchet_parseErr _ _ _ hp)] at h
        simp at h
      | some r =>
        have hrb := parsePub_some hp
        rw [receiveMain_diff_ok _ _ _ _ _ _ hdh hsk1
          (dhRatchet_ok s1 m.header.dh g r hp)] at h
        obtain ⟨hu1, hb1, ht1⟩ := (skipMessageKeys_ok _ _ _ _).mp hsk1
        cases hsk2 : skipMessageKeys
            { localPri := g
              remotePub := r
              rootKey := (DeriveRK (DeriveRK s1.rootKey (sharedSecret s1.localPri r)).1
                  (sharedSecret g r)).1
              sendChainKey := (DeriveRK (DeriveRK s1.rootKey (sharedSecret s1.localPri r)).1
                  (sharedSecret g r)).2
              recvChainKey := (DeriveRK s1.rootKey (sharedSecret s1.localPri r)).2
              sendN := 0
              recvN := 0
              prevN := s1.recvN
              skipped := s1.skipped }
            0 m.header.n with
        | error e =>
          rw [receiveFinish_skipErr _ _ _ _ hsk2] at h
          simp at h
        | ok s3 =>
          cases hdec : decB (B.mkOf s3.recvChainKey) m.ct ad with
          | none =>
            rw [receiveFinish_decFail _ _ _ _ hsk2 hdec] at h
            simp at h
          | some pt0 =>
            rw [receiveFinish_decOk _ _ _ _ _ hsk2 hdec] at h
            injection h with h1 h2
            obtain rfl : pt0 = pt := Except.ok.inj h1
            obtain ⟨hu2, hb2, ht3⟩ := (skipMessageKeys_ok _ _ _ _).mp hsk2
            subst h2
            refine ⟨?_, ?_, s3.recvChainKey, rfl, hdec⟩
            · show m.header.dh = pubB s3.remotePub
              rw [ht3, (skipLoop_const _ _ _).2.1]
              exact hrb
            · show lookupSK s3.skipped m.header.hid = _
              rw [ht3, lookupSK_skipLoop, if_neg]
              · show lookupSK s1.skipped m.header.hid = _
                rw [ht1, lookupSK_skipLoop, if_neg]
                rintro ⟨a1, -⟩
                exact hdh a1
              · rintro ⟨-, a2, a3, -⟩
                have hn : m.header.hid.2.1 = m.header.n := rfl
                omega

/-- C3: for every message m and associated data ad, on any session satisfying
the honest-use invariant Inv (established by New and preserved by the
operations): if bob.Receive(m, ad) succeeds, then an immediately repeated
bob.Receive(m, ad) on the same message returns an error — the message key was
consumed: either it was deleted from the skipped-key store on use (second
lookup misses and the retired header is rejected out-of-order or fails to
decrypt under the re-derived chains), or RecvN advanced past m's index so the
freshly derived message key no longer matches the ciphertext. -/
theorem C3_duplicate_rejection (s : DR) (m : CMsg) (ad pt : B) (g g2 : Nat) (s' : DR)
    (hinv : Inv s)
    (h1 : Receive s m ad g = (.ok pt, s')) :
    ∃ e : Err, (Receive s' m ad g2).1 = .error e := by
  cases hL : lookupSK s.skipped m.header.hid with
  | some mk =>
    cases hD : decB mk m.ct ad with
    | some pt0 =>
      rw [Receive_hit_ok _ _ _ _ _ _ hL hD] at h1
      injection h1 with h1f h1s
      obtain rfl : pt0 = pt := Except.ok.inj h1f
      have hs' : s' = { s with skipped := eraseSK s.skipped m.header.hid } := h1s.symm
      have hmiss2 : lookupSK s'.skipped m.header.hid = none := by
        rw [hs']
        show lookupSK (eraseSK s.skipped m.header.hid) m.header.hid = none
        rw [lookupSK_eraseSK, if_pos rfl]
      rw [Receive_miss _ _ _ _ hmiss2]
      have hmem := lookupSK_some_mem hL
      by_cases hdh : m.header.dh = pubB s.remotePub
      · have hlt : m.header.n < s.recvN := by
          have := (hinv.1 _ hmem).1
          exact this hdh
        have hdh2 : m.header.dh = pubB s'.remotePub := by
          rw [hs']
          exact hdh
        have hrecvN : s'.recvN = s.recvN := by rw [hs']
        refine ⟨.outOfOrder, ?_⟩
        rw [receiveMain_same _ _ _ _ hdh2,
          receiveFinish_skipErr _ _ _ _
            ((skipMessageKeys_outOfOrder _ _ _).mpr (by rw [hrecvN]; exact hlt))]
      · obtain ⟨n1, hct⟩ := decB_some_inv hD
        have hbound : rdepth mk ≤ rdepth s'.rootKey := by
          rw [hs']
          exact (hinv.1 _ hmem).2
        have hdh2 : ¬ m.header.dh = pubB s'.remotePub := by
          rw [hs']
          exact hdh
        exact receiveMain_diff_stale_errors s' m ad g2 mk n1 pt0 hct hbound hdh2
    | none =>
      rw [Receive_hit_fail _ _ _ _ _ hL hD] at h1
      obtain ⟨hdh', hlook, X, hck, hdecX⟩ := receiveMain_ok_fields _ _ _ _ _ _ h1
      obtain ⟨n1, hct⟩ := decB_some_inv hdecX
      have hL2 : lookupSK s'.skipped m.header.hid = some mk := by
        rw [hlook, hL]
      rw [Receive_hit_fail _ _ _ _ _ hL2 hD]
      exact receiveMain_behind_chain_errors s' m ad g2 X n1 pt hdh' hct hck
  | none =>
    rw [Receive_miss _ _ _ _ hL] at h1
    obtain ⟨hdh', hlook, X, hck, hdecX⟩ := receiveMain_ok_fields _ _ _ _ _ _ h1
    obtain ⟨n1, hct⟩ := decB_some_inv hdecX
    have hL2 : lookupSK s'.skipped m.header.hid = none := by
      rw [hlook, hL]
    rw [Receive_miss _ _ _ _ hL2]
    exact receiveMain_behind_chain_errors s' m ad g2 X n1 pt hdh' hct hck

/-- Witness for C3 at a concrete input: a fresh receiver (which satisfies
Inv) accepts alice's first message once and rejects the immediate replay. -/
theorem C3_witness :
    Inv (newDR 1 0 (B.bits []))
    ∧ Receive (newDR 1 0 (B.bits []))
        ⟨⟨pubB 0, 0, 0⟩,
         .enc (B.mkOf (newDR 0 1 (B.bits [])).sendChainKey) 4 (B.bits [3]) (B.bits [])⟩
        (B.bits []) 0
      = (.ok (B.bits [3]),
         (Receive (newDR 1 0 (B.bits []))
          ⟨⟨pubB 0, 0, 0⟩,
           .enc (B.mkOf (newDR 0 1 (B.bits [])).sendChainKey) 4 (B.bits [3]) (B.bits [])⟩
          (B.bits []) 0).2)
    ∧ ∃ e : Err,
        (Receive
          (Receive (newDR 1 0 (B.bits []))
            ⟨⟨pubB 0, 0, 0⟩,
             .enc (B.mkOf (newDR 0 1 (B.bits [])).sendChainKey) 4 (B.bits [3]) (B.bits [])⟩
            (B.bits []) 0).2
          ⟨⟨pubB 0, 0, 0⟩,
           .enc (B.mkOf (newDR 0 1 (B.bits [])).sendChainKey) 4 (B.bits [3]) (B.bits [])⟩
          (B.bits []) 0).1 = .error e := by
  refine ⟨by decide, by decide, ?_⟩
  exact C3_duplicate_rejection (newDR 1 0 (B.bits []))
    ⟨⟨pubB 0, 0, 0⟩,
     .enc (B.mkOf (newDR 0 1 (B.bits [])).sendChainKey) 4 (B.bits [3]) (B.bits [])⟩
    (B.bits []) (B.bits [3]) 0 0 _ (by decide) (by decide)

/-- The invariant holds for every freshly constructed session. -/
theorem Inv_newDR (a b : Nat) (salt : B) : Inv (newDR a b salt) := by
  constructor
  · intro e he
    simp [newDR] at he
  · show rdepth (newDR a b salt).recvChainKey ≤ rdepth (newDR a b salt).rootKey
    exact Nat.le_refl _

/-- The invariant is preserved by Send (which only advances the send chain
and SendN). -/
theorem Inv_send (s : DR) (pt ad : B) (nonce : Option Nat) (h : Inv s) :
    Inv (Send s pt ad nonce).2 := by
  rw [Send_snd]
  exact h

theorem mem_eraseSK {e : HeaderID × B} {m : List (HeaderID × B)} {k : HeaderID}
    (h : e ∈ eraseSK m k) : e ∈ m := by
  induction m with
  | nil => simp at h
  | cons a rest ih =>
    by_cases hk : a.1 = k
    · rw [eraseSK_cons, if_pos hk] at h
      exact List.mem_cons_of_mem _ (ih h)
    · rw [eraseSK_cons, if_neg hk] at h
      rcases List.mem_cons.mp h with h' | h'
      · exact h' ▸ List.mem_cons_self _ _
      · exact List.mem_cons_of_mem _ (ih h')

theorem mem_insertSK {e : HeaderID × B} {m : List (HeaderID × B)} {k : HeaderID} {v : B}
    (h : e ∈ insertSK m k v) : e = (k, v) ∨ e ∈ m := by
  unfold insertSK at h
  rcases List.mem_append.mp h with h' | h'
  · exact Or.inr (mem_eraseSK h')
  · exact Or.inl (by simpa using h')

/-- Every entry of the store after the skip loop is either an old entry or a
newly inserted one: stored under the current remote key and the receiver's
prevN, with an index in the skipped range and the message key of that chain
position. -/
theorem mem_skipLoop {e : HeaderID × B} (s : DR) (u k : Nat)
    (h : e ∈ (skipLoop s u k).skipped) :
    e ∈ s.skipped
    ∨ (e.1.1 = pubB s.remotePub ∧ u ≤ e.1.2.1 ∧ e.1.2.1 < u + k ∧ e.1.2.2 = s.prevN
       ∧ e.2 = B.mkOf (B.ckNext^[e.1.2.1 - u] s.recvChainKey)) := by
  induction k generalizing s u with
  | zero => exact Or.inl h
  | succ k ih =>
    rcases ih _ (u + 1) h with h' | ⟨e1, e2, e3, e4, e5⟩
    · rcases mem_insertSK h' with rfl | h''
      · refine Or.inr ⟨rfl, Nat.le_refl _, show u < u + (k + 1) from by omega, rfl, ?_⟩
        rw [Nat.sub_self]
        rfl
      · exact Or.inl h''
    · refine Or.inr ⟨e1, by omega, by omega, e4, ?_⟩
      rw [e5]
      show B.mkOf (B.ckNext^[e.1.2.1 - (u + 1)] (B.ckNext s.recvChainKey)) = _
      rw [← Function.iterate_succ_apply,
        show (e.1.2.1 - (u + 1)).succ = e.1.2.1 - u from by omega]

theorem rdepth_DeriveRK_fst (rk dh : B) :
    rdepth (DeriveRK rk dh).1 = max (rdepth dh) (rdepth rk) + 1 := rfl

/-- The invariant is preserved by the main path of a successful Receive,
provided the call does not wrap the 32-bit counter and, on a ratchet step,
the incoming remote key is fresh (no stored entry already carries it) — both
automatic in honest use, where keys are fresh with overwhelming probability
and chains ratchet long before 2^32 messages. -/
theorem Inv_receiveMain (s : DR) (m : CMsg) (ad pt : B) (g : Nat) (s' : DR)
    (hinv : Inv s)
    (hwrapn : m.header.n + 1 < u32)
    (hrw : s.recvN < u32)
    (hfresh : ¬ m.header.dh = pubB s.remotePub → ∀ e ∈ s.skipped, e.1.1 ≠ m.header.dh)
    (h : receiveMain s m ad g = (.ok pt, s')) :
    Inv s' := by
  by_cases hdh : m.header.dh = pubB s.remotePub
  · rw [receiveMain_same _ _ _ _ hdh] at h
    cases hsk : skipMessageKeys s s.recvN m.header.n with
    | error e =>
      rw [receiveFinish_skipErr _ _ _ _ hsk] at h
      simp at h
    | ok s3 =>
      cases hdec : decB (B.mkOf s3.recvChainKey) m.ct ad with
      | none =>
        rw [receiveFinish_decFail _ _ _ _ hsk hdec] at h
        simp at h
      | some pt0 =>
        rw [receiveFinish_decOk _ _ _ _ _ hsk hdec] at h
        injection h with h1 h2
        rw [← h2]
        obtain ⟨hu, hb, ht3⟩ := (skipMessageKeys_ok _ _ _ _).mp hsk
        have hs3r : s3.remotePub = s.remotePub := by
          rw [ht3]
          exact (skipLoop_const _ _ _).2.1
        have hs3root : s3.rootKey = s.rootKey := by
          rw [ht3]
          exact (skipLoop_const _ _ _).2.2.2.1
        have hrn3 : s3.recvN = m.header.n := by
          rw [ht3, skipLoop_recvN _ _ _ hrw,
            show s.recvN + (m.header.n - s.recvN) = m.header.n from by omega]
          exact Nat.mod_eq_of_lt (by omega)
        constructor
        · intro e he
          rcases mem_skipLoop s s.recvN (m.header.n - s.recvN) (ht3 ▸ he) with
            hold | ⟨e1, e2, e3, e4, e5⟩
          · refine ⟨?_, ?_⟩
            · intro hd
              have hd' : e.1.1 = pubB s.remotePub := by
                rw [show pubB s.remotePub = pubB s3.remotePub from by rw [hs3r]]
                exact hd
              have hlt := (hinv.1 e hold).1 hd'
              show e.1.2.1 < (s3.recvN + 1) % u32
              rw [hrn3, Nat.mod_eq_of_lt hwrapn]
              omega
            · show rdepth e.2 ≤ rdepth s3.rootKey
              rw [hs3root]
              exact (hinv.1 e hold).2
          · refine ⟨?_, ?_⟩
            · intro hd
              show e.1.2.1 < (s3.recvN + 1) % u32
              rw [hrn3, Nat.mod_eq_of_lt hwrapn]
              omega
            · show rdepth e.2 ≤ rdepth s3.rootKey
              rw [hs3root, e5]
              have : rdepth (B.mkOf (B.ckNext^[e.1.2.1 - s.recvN] s.recvChainKey))
                  = rdepth s.recvChainKey := by
                show rdepth (B.ckNext^[e.1.2.1 - s.recvN] s.recvChainKey) = _
                exact rdepth_iter _ _
              rw [this]
              exact hinv.2
        · show rdepth (B.ckNext s3.recvChainKey) ≤ rdepth s3.rootKey
          show rdepth s3.recvChainKey ≤ rdepth s3.rootKey
          rw [hs3root, ht3, skipLoop_recvChainKey, rdepth_iter]
          exact hinv.2
  · cases hsk1 : skipMessageKeys s s.recvN m.header.pn with
    | error e =>
      rw [receiveMain_diff_skipErr _ _ _ _ _ hdh hsk1] at h
      simp at h
    | ok s1 =>
      cases hp : parsePub m.header.dh with
      | none =>
        rw [receiveMain_diff_ratchetErr _ _ _ _ _ _ _ hdh hsk1
          (dhRatchet_parseErr _ _ _ hp)] at h
        simp at h
      | some r =>
        have hrb := parsePub_some hp
        rw [receiveMain_diff_ok _ _ _ _ _ _ hdh hsk1
          (dhRatchet_ok s1 m.header.dh g r hp)] at h
        obtain ⟨hu1, hb1, ht1⟩ := (skipMessageKeys_ok _ _ _ _).mp hsk1
        have hs1r : s1.remotePub = s.remotePub := by
          rw [ht1]
          exact (skipLoop_const _ _ _).2.1
        have hs1root : s1.rootKey = s.rootKey := by
          rw [ht1]
          exact (skipLoop_const _ _ _).2.2.2.1
        set t2 : DR :=
          { localPri := g
            remotePub := r
            rootKey := (DeriveRK (DeriveRK s1.rootKey (sharedSecret s1.localPri r)).1
                (sharedSecret g r)).1
            sendChainKey := (DeriveRK (DeriveRK s1.rootKey (sharedSecret s1.localPri r)).1
                (sharedSecret g r)).2
            recvChainKey := (DeriveRK s1.rootKey (sharedSecret s1.localPri r)).2
            sendN := 0
            recvN := 0
            prevN := s1.recvN
            skipped := s1.skipped } with ht2
        have ht2root : rdepth t2.rootKey = rdepth s.rootKey + 2 := by
          rw [ht2]
          show rdepth (DeriveRK (DeriveRK s1.rootKey (sharedSecret s1.localPri r)).1
            (sharedSecret g r)).1 = _
          rw [rdepth_DeriveRK_fst, rdepth_DeriveRK_fst, rdepth_sharedSecret,
            rdepth_sharedSecret, Nat.zero_max, Nat.zero_max, hs1root]
        have ht2ck : rdepth t2.recvChainKey = rdepth s.rootKey + 1 := by
          rw [ht2]
          show rdepth (DeriveRK s1.rootKey (sharedSecret s1.localPri r)).2 = _
          rw [rdepth_DeriveRK_snd, rdepth_sharedSecret, Nat.zero_max, hs1root]
        cases hsk2 : skipMessageKeys t2 t2.recvN m.header.n with
        | error e =>
          rw [receiveFinish_skipErr _ _ _ _ hsk2] at h
          simp at h
        | ok s3 =>
          cases hdec : decB (B.mkOf s3.recvChainKey) m.ct ad with
          | none =>
            rw [receiveFinish_decFail _ _ _ _ hsk2 hdec] at h
            simp at h
          | some pt0 =>
            rw [receiveFinish_decOk _ _ _ _ _ hsk2 hdec] at h
            injection h with h1 h2
            rw [← h2]
            obtain ⟨hu2, hb2, ht3⟩ := (skipMessageKeys_ok _ _ _ _).mp hsk2
            have ht2recvN : t2.recvN = 0 := by rw [ht2]
            have hs3r : s3.remotePub = r := by
              rw [ht3, (skipLoop_const _ _ _).2.1, ht2]
            have hs3root : rdepth s3.rootKey = rdepth s.rootKey + 2 := by
              rw [ht3, (skipLoop_const _ _ _).2.2.2.1]
              exact ht2root
            have hrn3 : s3.recvN = m.header.n := by
              rw [ht3, skipLoop_recvN _ _ _ (by rw [ht2recvN]; norm_num [u32]),
                ht2recvN, Nat.zero_add]
              rw [show m.header.n - 0 = m.header.n from rfl]
              exact Nat.mod_eq_of_lt (by omega)
            have ht2sk : t2.skipped = s1.skipped := by rw [ht2]
            have ht2prev : t2.prevN = s1.recvN := by rw [ht2]
            constructor
            · intro e he
              rcases mem_skipLoop t2 t2.recvN (m.header.n - t2.recvN) (ht3 ▸ he) with
                hold | ⟨e1, e2, e3, e4, e5⟩
              · rw [ht2sk] at hold
                rcases mem_skipLoop s s.recvN (m.header.pn - s.recvN) (ht1 ▸ hold) with
                  hmemS | ⟨f1, f2, f3, f4, f5⟩
                · refine ⟨?_, ?_⟩
                  · intro hd
                    have hd' : e.1.1 = m.header.dh := by
                      rw [hrb]
                      show e.1.1 = pubB r
                      rw [← hs3r]
                      exact hd
                    exact (hfresh hdh e hmemS hd').elim
                  · show rdepth e.2 ≤ rdepth s3.rootKey
                    have hbd := (hinv.1 e hmemS).2
                    rw [hs3root]
                    omega
                · refine ⟨?_, ?_⟩
                  · intro hd
                    have hd' : e.1.1 = m.header.dh := by
                      rw [hrb]
                      show e.1.1 = pubB r
                      rw [← hs3r]
                      exact hd
                    exact (hdh (hd'.symm.trans f1)).elim
                  · show rdepth e.2 ≤ rdepth s3.rootKey
                    rw [hs3root, f5]
                    have hiter : rdepth (B.mkOf (B.ckNext^[e.1.2.1 - s.recvN]
                        s.recvChainKey)) = rdepth s.recvChainKey := by
                      show rdepth (B.ckNext^[e.1.2.1 - s.recvN] s.recvChainKey) = _
                      exact rdepth_iter _ _
                    rw [hiter]
                    have := hinv.2
                    omega
              · refine ⟨?_, ?_⟩
                · intro hd
                  rw [ht2recvN] at e2 e3
                  show e.1.2.1 < (s3.recvN + 1) % u32
                  rw [hrn3, Nat.mod_eq_of_lt hwrapn]
                  omega
                · show rdepth e.2 ≤ rdepth s3.rootKey
                  rw [hs3root, e5]
                  have hiter : rdepth (B.mkOf (B.ckNext^[e.1.2.1 - t2.recvN]
                      t2.recvChainKey)) = rdepth t2.recvChainKey := by
                    show rdepth (B.ckNext^[e.1.2.1 - t2.recvN] t2.recvChainKey) = _
                    exact rdepth_iter _ _
                  rw [hiter, ht2ck]
                  omega
            · show rdepth (B.ckNext s3.recvChainKey) ≤ rdepth s3.rootKey
              show rdepth s3.recvChainKey ≤ rdepth s3.rootKey
              rw [hs3root, ht3, skipLoop_recvChainKey, rdepth_iter, ht2ck]
              omega

/-- The invariant is preserved by every successful Receive, under the same
honest-use side conditions as Inv_receiveMain; together with Inv_newDR and
Inv_send this makes Inv an invariant of every honestly reachable session, so
the hypothesis of the duplicate-rejection theorem is met along honest
executions. -/
theorem Inv_receive (s : DR) (m : CMsg) (ad pt : B) (g : Nat) (s' : DR)
    (hinv : Inv s)
    (hwrapn : m.header.n + 1 < u32)
    (hrw : s.recvN < u32)
    (hfresh : ¬ m.header.dh = pubB s.remotePub → ∀ e ∈ s.skipped, e.1.1 ≠ m.header.dh)
    (h : Receive s m ad g = (.ok pt, s')) :
    Inv s' := by
  cases hL : lookupSK s.skipped m.header.hid with
  | some mk =>
    cases hD : decB mk m.ct ad with
    | some pt0 =>
      rw [Receive_hit_ok _ _ _ _ _ _ hL hD] at h
      injection h with h1 h2
      rw [← h2]
      constructor
      · intro e he
        have hmem : e ∈ s.skipped := mem_eraseSK he
        exact ⟨fun hd => (hinv.1 e hmem).1 hd, (hinv.1 e hmem).2⟩
      · exact hinv.2
    | none =>
      rw [Receive_hit_fail _ _ _ _ _ hL hD] at h
      exact Inv_receiveMain s m ad pt g s' hinv hwrapn hrw hfresh h
  | none =>
    rw [Receive_miss _ _ _ _ hL] at h
    exact Inv_receiveMain s m ad pt g s' hinv hwrapn hrw hfresh h

end Goratchet
